import Mathlib

/-!
Verification of the dowoo-fph freight-pricing core: a shallow embedding of
the market-data statistical analyzer (`src/lib/csv-parser.ts`, analysis part),
the 3-tier pricing engine (`src/lib/pricing-engine.ts`), the route-distance
resolver and the batch runner, with theorems settling the frozen claims.

JavaScript `number` is modelled as `ℝ` (`Math.sqrt` = `Real.sqrt`,
`Math.atan2 y x` = `Complex.arg ⟨x, y⟩`); quantities the code always passes
through `Math.round` are stored as `ℤ`.  `Math.round x` (half toward +∞)
is `⌊x + 1/2⌋`, `Math.floor`/`Math.ceil` are `⌊·⌋`/`⌈·⌉`.  JavaScript `Map`
(insertion-ordered) is modelled as an association list that appends fresh
keys at the end, and the stable `Array.prototype.sort` as `List.mergeSort`.
-/

namespace FPH

/-- JavaScript `Math.round`: rounds half toward positive infinity. -/
noncomputable def jsRound (x : ℝ) : ℤ := ⌊x + 1 / 2⌋

open Classical in
/-- Boolean `≤` test on reals, used where the source compares numbers. -/
noncomputable def realLE (a b : ℝ) : Bool := decide (a ≤ b)

-- ══════════════════════════════════════════════════════════════════
-- Statistical analysis module (analyzeMarketData and helpers)
-- ══════════════════════════════════════════════════════════════════

/-- One raw market observation (interface `PriceDataPoint`). -/
structure PriceDataPoint where
  origin : String
  destination : String
  vehicleType : String
  unitPrice : ℝ

/-- Analyzer output record (interface `RouteMedianResult`).  The fields the
source always rounds with `Math.round` (or sets to the integer 0) are `ℤ`;
sizes are `ℕ`; `confidenceScore` stays `ℝ`. -/
structure RouteMedianResult where
  origin : String
  destination : String
  vehicleType : String
  median : ℤ
  sampleSize : ℕ
  filteredSize : ℕ
  q1 : ℤ
  q3 : ℤ
  iqr : ℤ
  lowerBound : ℤ
  upperBound : ℤ
  confidenceScore : ℝ
  isFallback : Bool
  fallbackLevel : Option String

/-- Constant `MIN_SAMPLE_SIZE` from the source. -/
def MIN_SAMPLE_SIZE : ℕ := 5

/-- Function `sortedNumeric`: `[...values].sort((a, b) => a - b)` — ascending sort. -/
noncomputable def sortedNumeric (values : List ℝ) : List ℝ :=
  values.mergeSort realLE

/-- Function `quantile(sorted, q)`: linear interpolation between order statistics at
position `q * (length - 1)`; `0` on the empty list. -/
noncomputable def quantile (sorted : List ℝ) (q : ℝ) : ℝ :=
  if sorted.length = 0 then 0
  else if sorted.length = 1 then sorted.getD 0 0
  else
    let pos := q * ((sorted.length : ℝ) - 1)
    let lower := ⌊pos⌋
    let upper := ⌈pos⌉
    let fraction := pos - (lower : ℝ)
    if lower = upper then sorted.getD lower.toNat 0
    else sorted.getD lower.toNat 0 * (1 - fraction) + sorted.getD upper.toNat 0 * fraction

/-- Function `median(sorted)` = `quantile(sorted, 0.5)`. -/
noncomputable def median (sorted : List ℝ) : ℝ := quantile sorted 0.5

/-- Result of `applyIQRFilter` (interface `IQRResult`). -/
structure IQRResult where
  filtered : List ℝ
  q1 : ℝ
  q3 : ℝ
  iqr : ℝ
  lowerBound : ℝ
  upperBound : ℝ

/-- Function `applyIQRFilter(values, multiplier)`: keep the sorted values inside
`[q1 - multiplier·iqr, q3 + multiplier·iqr]` (the source's only call site
uses the default `multiplier = 1.5`). -/
noncomputable def applyIQRFilter (values : List ℝ) (multiplier : ℝ) : IQRResult :=
  let sorted := sortedNumeric values
  let q1 := quantile sorted 0.25
  let q3 := quantile sorted 0.75
  let iqr := q3 - q1
  let lowerBound := q1 - multiplier * iqr
  let upperBound := q3 + multiplier * iqr
  let filtered := sorted.filter fun v => realLE lowerBound v && realLE v upperBound
  ⟨filtered, q1, q3, iqr, lowerBound, upperBound⟩

/-- Characters before the first `'/'` (the whole list when there is none):
`location.split("/")[0]` at character level. -/
def beforeSlash : List Char → List Char
  | [] => []
  | c :: rest => if c = '/' then [] else c :: beforeSlash rest

/-- Leading- and trailing-whitespace trim on a character list (`trim()`). -/
def trimChars (l : List Char) : List Char :=
  ((l.dropWhile Char.isWhitespace).reverse.dropWhile Char.isWhitespace).reverse

/-- Function `extractProvince`: `location.split("/")[0].trim()` — the part of the
location before the first `/`, trimmed.  The identical helper appears in
both the analyzer and the route-distance module. -/
def extractProvince (location : String) : String :=
  String.mk (trimChars (beforeSlash location.data))

/-- Function `computeConfidence(sampleSize, filteredValues, isFallback)` from the
source: size factor and consistency factor blended 0.6/0.4, multiplied by
the fallback penalty, then rounded to 2 decimals. -/
noncomputable def computeConfidence (sampleSize : ℕ) (filteredValues : List ℝ)
    (isFallback : Bool) : ℝ :=
  let sizeFactor : ℝ := min ((sampleSize : ℝ) / 30) 1.0
  let consistencyFactor : ℝ :=
    if 2 ≤ filteredValues.length then
      let mean := filteredValues.sum / (filteredValues.length : ℝ)
      if 0 < mean then
        let variance :=
          (filteredValues.map fun v => (v - mean) ^ 2).sum / (filteredValues.length : ℝ)
        let cv := Real.sqrt variance / mean
        max 0 (1.0 - cv)
      else 1.0
    else 1.0
  let rawScore := sizeFactor * 0.6 + consistencyFactor * 0.4
  let fallbackPenalty : ℝ := if isFallback then 0.7 else 1.0
  (jsRound (rawScore * fallbackPenalty * 100) : ℝ) / 100

/-- Function `routeKey(origin, destination, vehicleType)`. -/
def routeKey (origin destination vehicleType : String) : String :=
  origin ++ "||" ++ destination ++ "||" ++ vehicleType

/-- Function `provinceRouteKey(origin, destination, vehicleType)`. -/
def provinceRouteKey (origin destination vehicleType : String) : String :=
  routeKey (extractProvince origin) (extractProvince destination) vehicleType

/-- A grouping bucket of `analyzeMarketData` (representative names of the
first observation plus the accumulated prices). -/
structure PriceGroup where
  origin : String
  destination : String
  vehicleType : String
  prices : List ℝ

/-- Insert one observation into an insertion-ordered association list of
groups, as the `Map`-based grouping loops of `analyzeMarketData` do:
append the price to an existing bucket, or append a fresh bucket. -/
def addPoint (groups : List (String × PriceGroup))
    (key origin destination vehicleType : String) (price : ℝ) :
    List (String × PriceGroup) :=
  match groups with
  | [] => [(key, ⟨origin, destination, vehicleType, [price]⟩)]
  | (k, g) :: rest =>
    if k = key then (k, { g with prices := g.prices ++ [price] }) :: rest
    else (k, g) :: addPoint rest key origin destination vehicleType price

/-- Step 1 of `analyzeMarketData`: group by exact route. -/
def routeGroups (data : List PriceDataPoint) : List (String × PriceGroup) :=
  data.foldl
    (fun gs d =>
      addPoint gs (routeKey d.origin d.destination d.vehicleType)
        d.origin d.destination d.vehicleType d.unitPrice)
    []

/-- Step 2 of `analyzeMarketData`: province-level fallback pool. -/
def provinceGroups (data : List PriceDataPoint) : List (String × PriceGroup) :=
  data.foldl
    (fun gs d =>
      addPoint gs (provinceRouteKey d.origin d.destination d.vehicleType)
        (extractProvince d.origin) (extractProvince d.destination)
        d.vehicleType d.unitPrice)
    []

/-- The result pushed for an exact-route group with enough data. -/
noncomputable def exactResult (g : PriceGroup) : RouteMedianResult :=
  let r := applyIQRFilter g.prices 1.5
  let med := median (sortedNumeric r.filtered)
  { origin := g.origin
    destination := g.destination
    vehicleType := g.vehicleType
    median := jsRound med
    sampleSize := g.prices.length
    filteredSize := r.filtered.length
    q1 := jsRound r.q1
    q3 := jsRound r.q3
    iqr := jsRound r.iqr
    lowerBound := jsRound r.lowerBound
    upperBound := jsRound r.upperBound
    confidenceScore := computeConfidence g.prices.length r.filtered false
    isFallback := false
    fallbackLevel := none }

/-- The result pushed when even the province pool is small: computed from
the pooled `prices` with no IQR filtering (`iqr = lowerBound = upperBound
= 0`), labelled with the small exact group's own names. -/
noncomputable def lowDataResult (g : PriceGroup) (prices : List ℝ) : RouteMedianResult :=
  let sorted := sortedNumeric prices
  let med := median sorted
  { origin := g.origin
    destination := g.destination
    vehicleType := g.vehicleType
    median := jsRound med
    sampleSize := prices.length
    filteredSize := prices.length
    q1 := jsRound (quantile sorted 0.25)
    q3 := jsRound (quantile sorted 0.75)
    iqr := 0
    lowerBound := 0
    upperBound := 0
    confidenceScore := computeConfidence prices.length prices true
    isFallback := true
    fallbackLevel := some "province" }

/-- The result pushed for a province pool with enough data: IQR-filtered,
labelled with the province-level names. -/
noncomputable def provincePoolResult (pg : PriceGroup) : RouteMedianResult :=
  let r := applyIQRFilter pg.prices 1.5
  let med := median (sortedNumeric r.filtered)
  { origin := pg.origin
    destination := pg.destination
    vehicleType := pg.vehicleType
    median := jsRound med
    sampleSize := pg.prices.length
    filteredSize := r.filtered.length
    q1 := jsRound r.q1
    q3 := jsRound r.q3
    iqr := jsRound r.iqr
    lowerBound := jsRound r.lowerBound
    upperBound := jsRound r.upperBound
    confidenceScore := computeConfidence pg.prices.length r.filtered true
    isFallback := true
    fallbackLevel := some "province" }

/-- The single result emitted for a small exact group (first of its province
key): province pool IQR-filtered when the pool has `≥ MIN_SAMPLE_SIZE`
prices, otherwise the pooled prices unfiltered (`provGroup?.prices ??
group.prices` in the source — the exact group's own prices only if no
province bucket exists). -/
noncomputable def smallGroupResult (pGroups : List (String × PriceGroup))
    (g : PriceGroup) : RouteMedianResult :=
  match pGroups.lookup (provinceRouteKey g.origin g.destination g.vehicleType) with
  | none => lowDataResult g g.prices
  | some pg =>
    if pg.prices.length < MIN_SAMPLE_SIZE then lowDataResult g pg.prices
    else provincePoolResult pg

/-- Accumulator of step 3 of `analyzeMarketData`: emitted results plus the
`processedProvinceKeys` dedupe set (insertion-ordered). -/
structure AnalyzeState where
  results : List RouteMedianResult
  processedProvinceKeys : List String

/-- One iteration of the step-3 loop of `analyzeMarketData` over an exact
group. -/
noncomputable def processGroup (pGroups : List (String × PriceGroup))
    (st : AnalyzeState) (g : PriceGroup) : AnalyzeState :=
  if MIN_SAMPLE_SIZE ≤ g.prices.length then
    { st with results := st.results ++ [exactResult g] }
  else
    let provKey := provinceRouteKey g.origin g.destination g.vehicleType
    if provKey ∈ st.processedProvinceKeys then st
    else
      { results := st.results ++ [smallGroupResult pGroups g]
        processedProvinceKeys := st.processedProvinceKeys ++ [provKey] }

/-- The unsorted result list of `analyzeMarketData` (the `results` array
right before the final `.sort`). -/
noncomputable def analyzeCore (data : List PriceDataPoint) : List RouteMedianResult :=
  ((routeGroups data).foldl
      (fun st kg => processGroup (provinceGroups data) st kg.2)
      ⟨[], []⟩).results

/-- The final comparator `(a, b) => b.confidenceScore - a.confidenceScore`
as a boolean "may precede" relation: descending by confidence. -/
noncomputable def byConfidenceDesc (a b : RouteMedianResult) : Bool :=
  realLE b.confidenceScore a.confidenceScore

/-- Function `analyzeMarketData(data)`: grouped, filtered, scored results, stably
sorted by descending confidence score. -/
noncomputable def analyzeMarketData (data : List PriceDataPoint) : List RouteMedianResult :=
  (analyzeCore data).mergeSort byConfidenceDesc

-- ══════════════════════════════════════════════════════════════════
-- Route-distance module (route-distance.ts)
-- ══════════════════════════════════════════════════════════════════

/-- Province centroid coordinates `(lat, lng)` (`PROVINCE_COORDS`). -/
noncomputable def PROVINCE_COORDS : List (String × (ℝ × ℝ)) :=
  [("Seoul", (37.5665, 126.978)),
   ("Incheon", (37.4563, 126.7052)),
   ("Gyeonggi", (37.4138, 127.5183)),
   ("Gangwon", (37.8228, 128.1555)),
   ("Chungbuk", (36.6357, 127.4917)),
   ("Chungnam", (36.5184, 126.8)),
   ("Daejeon", (36.3504, 127.3845)),
   ("Sejong", (36.48, 127.0)),
   ("Jeonbuk", (35.8203, 127.1089)),
   ("Jeonnam", (34.8161, 126.4629)),
   ("Gwangju", (35.1595, 126.8526)),
   ("Gyeongbuk", (36.576, 128.5056)),
   ("Gyeongnam", (35.4606, 128.2132)),
   ("Daegu", (35.8714, 128.6014)),
   ("Busan", (35.1796, 129.0756)),
   ("Ulsan", (35.5384, 129.3114)),
   ("Jeju", (33.4996, 126.5312))]

/-- Known road distances in km for major corridors (`ROAD_DISTANCES`),
keyed by `"Province1→Province2"` strings exactly as in the source. -/
def ROAD_DISTANCES : List (String × ℕ) :=
  [("Busan→Seoul", 325),
   ("Daegu→Seoul", 237),
   ("Daejeon→Seoul", 140),
   ("Gwangju→Seoul", 268),
   ("Incheon→Seoul", 28),
   ("Gyeonggi→Seoul", 40),
   ("Gangwon→Seoul", 133),
   ("Chungbuk→Seoul", 120),
   ("Chungnam→Seoul", 130),
   ("Gyeongbuk→Seoul", 200),
   ("Gyeongnam→Seoul", 300),
   ("Jeonbuk→Seoul", 200),
   ("Jeonnam→Seoul", 290),
   ("Ulsan→Seoul", 307),
   ("Sejong→Seoul", 120),
   ("Busan→Daegu", 88),
   ("Busan→Ulsan", 52),
   ("Busan→Gyeongnam", 70),
   ("Daegu→Gyeongbuk", 50),
   ("Daegu→Ulsan", 75),
   ("Daejeon→Chungbuk", 60),
   ("Daejeon→Chungnam", 40),
   ("Daejeon→Sejong", 25),
   ("Gwangju→Jeonnam", 45),
   ("Gwangju→Jeonbuk", 85),
   ("Gyeonggi→Incheon", 30),
   ("Gyeonggi→Gangwon", 110),
   ("Gyeonggi→Chungbuk", 100),
   ("Gyeonggi→Chungnam", 90),
   ("Gyeongnam→Jeonnam", 180),
   ("Jeonbuk→Jeonnam", 100),
   ("Jeonbuk→Chungnam", 90),
   ("Busan→Gwangju", 260),
   ("Busan→Daejeon", 200),
   ("Busan→Jeonbuk", 230),
   ("Daegu→Daejeon", 120),
   ("Daegu→Gwangju", 185),
   ("Incheon→Busan", 350),
   ("Busan→Jeju", 450),
   ("Seoul→Jeju", 480)]

/-- JavaScript `Math.atan2 y x`, which equals the principal argument of the
complex number `x + y·i`. -/
noncomputable def atan2 (y x : ℝ) : ℝ := Complex.arg ⟨x, y⟩

/-- Function `haversineKm([lat1, lng1], [lat2, lng2])`: great-circle distance with
Earth radius 6371 km. -/
noncomputable def haversineKm (c1 c2 : ℝ × ℝ) : ℝ :=
  let R : ℝ := 6371
  let dLat := (c2.1 - c1.1) * Real.pi / 180
  let dLng := (c2.2 - c1.2) * Real.pi / 180
  let a := Real.sin (dLat / 2) ^ 2 +
    Real.cos (c1.1 * Real.pi / 180) * Real.cos (c2.1 * Real.pi / 180) *
      Real.sin (dLng / 2) ^ 2
  let c := 2 * atan2 (Real.sqrt a) (Real.sqrt (1 - a))
  R * c

/-- Function `lookupDistance(prov1, prov2)`: try `"prov1→prov2"` then
`"prov2→prov1"` in the corridor table (the source's `??` chain). -/
def lookupDistance (prov1 prov2 : String) : Option ℕ :=
  match ROAD_DISTANCES.lookup (prov1 ++ "→" ++ prov2) with
  | some v => some v
  | none => ROAD_DISTANCES.lookup (prov2 ++ "→" ++ prov1)

/-- Provenance tag of a resolved distance. -/
inductive DistanceSource where
  | lookup
  | haversine
deriving DecidableEq

/-- Result of `getRouteDistance` (interface `RouteDistanceResult`). -/
structure RouteDistanceResult where
  distanceKm : ℝ
  source : DistanceSource

/-- Function `getRouteDistance(origin, destination)`: same-province 30 km default,
then corridor-table lookup, then haversine × 1.3 road factor (rounded),
then a 200 km absolute default. -/
noncomputable def getRouteDistance (origin destination : String) : RouteDistanceResult :=
  let prov1 := extractProvince origin
  let prov2 := extractProvince destination
  if prov1 = prov2 then ⟨30, DistanceSource.lookup⟩
  else
    match lookupDistance prov1 prov2 with
    | some known => ⟨(known : ℝ), DistanceSource.lookup⟩
    | none =>
      match PROVINCE_COORDS.lookup prov1, PROVINCE_COORDS.lookup prov2 with
      | some coord1, some coord2 =>
        ⟨(jsRound (haversineKm coord1 coord2 * 1.3) : ℝ), DistanceSource.haversine⟩
      | _, _ => ⟨200, DistanceSource.haversine⟩

-- ══════════════════════════════════════════════════════════════════
-- Pricing engine (pricing-engine.ts)
-- ══════════════════════════════════════════════════════════════════

/-- Named cost variables (interface `CostVariables`). -/
structure CostVariables where
  fuel_price : ℝ
  fuel_efficiency : ℝ
  toll_rate : ℝ
  vehicle_fixed_cost : ℝ
  driver_profit_rate : ℝ
  company_margin_rate : ℝ
  freight_risk_fragile : ℝ
  freight_risk_refrigerated : ℝ
  freight_risk_hazardous : ℝ

/-- Compiled-in cost defaults (`COST_DEFAULTS`). -/
noncomputable def COST_DEFAULTS : CostVariables :=
  ⟨1650, 3.5, 120, 150000, 0.15, 0.08, 0.12, 0.15, 0.20⟩

/-- Tier 2 breakdown (interface `Tier2Breakdown`). -/
structure Tier2Breakdown where
  marketMedian : Option ℤ
  adjustmentFactor : ℝ
  adjustedPrice : ℝ
  sampleSize : ℕ
  confidenceScore : ℝ
  isFallback : Bool
  hasMarketData : Bool

/-- The pure match-selection step of `findMarketMedian` over the analyzer's
results: exact `(origin, destination)` match first, else a province-level
fallback match, else none (the surrounding DB fetch is outside the model;
an empty fetch yields the `none` of an empty `results` list anyway). -/
def findMarketResult (results : List RouteMedianResult) (origin destination : String) :
    Option RouteMedianResult :=
  match results.find? (fun r => r.origin == origin && r.destination == destination) with
  | some exactMatch => some exactMatch
  | none =>
    let originProv := extractProvince origin
    let destProv := extractProvince destination
    results.find? (fun r => r.isFallback && r.origin == originProv && r.destination == destProv)

/-- Function `calculateTier2(tier1Base, marketResult)`: pass-through when there is no
market result, otherwise a confidence-weighted blend of cost basis and
market median. -/
noncomputable def calculateTier2 (tier1Base : ℝ)
    (marketResult : Option RouteMedianResult) : Tier2Breakdown :=
  match marketResult with
  | none =>
    { marketMedian := none
      adjustmentFactor := 1.0
      adjustedPrice := tier1Base
      sampleSize := 0
      confidenceScore := 0
      isFallback := false
      hasMarketData := false }
  | some mr =>
    let marketMedian := mr.median
    let confidence := mr.confidenceScore
    let adjustedPrice : ℝ :=
      (jsRound (tier1Base * (1 - confidence) + (marketMedian : ℝ) * confidence) : ℝ)
    let adjustmentFactor : ℝ :=
      if 0 < tier1Base then (jsRound (adjustedPrice / tier1Base * 1000) : ℝ) / 1000
      else 1.0
    { marketMedian := some marketMedian
      adjustmentFactor := adjustmentFactor
      adjustedPrice := adjustedPrice
      sampleSize := mr.sampleSize
      confidenceScore := confidence
      isFallback := mr.isFallback
      hasMarketData := true }

/-- JavaScript-style substring containment on strings (the `includes`
method): the needle's characters occur contiguously in the haystack. -/
def includesSubstring (s sub : String) : Bool := decide (sub.toList <:+: s.toList)

/-- Character-wise lowercasing (`toLowerCase()`). -/
def lowercase (s : String) : String := String.mk (s.data.map Char.toLower)

/-- Keyword set mapped to the fragile risk rate. -/
def fragileKeywords : List String := ["fragile", "paper", "glass", "ceramic", "electronics"]

/-- Keyword set mapped to the refrigerated risk rate. -/
def refrigeratedKeywords : List String := ["refrigerated", "frozen", "chilled", "cold"]

/-- Keyword set mapped to the hazardous risk rate. -/
def hazardousKeywords : List String := ["hazardous", "chemical", "flammable", "explosive"]

/-- Function `getFreightRiskRate(freightType, costs)`: case-insensitive keyword
matching, fragile set first, then refrigerated, then hazardous; no match
(or an absent `freightType`) means no surcharge.  An absent value is
modelled as `none`; the source's falsy check also catches the empty
string, which matches no keyword and yields 0 through the final branch
just the same. -/
def getFreightRiskRate (freightType : Option String) (costs : CostVariables) : ℝ :=
  match freightType with
  | none => 0
  | some ft =>
    let normalized := lowercase ft
    if fragileKeywords.any (fun k => includesSubstring normalized k) then
      costs.freight_risk_fragile
    else if refrigeratedKeywords.any (fun k => includesSubstring normalized k) then
      costs.freight_risk_refrigerated
    else if hazardousKeywords.any (fun k => includesSubstring normalized k) then
      costs.freight_risk_hazardous
    else 0

/-- Function `ceilTo1000(value)`: round up to the nearest 1000 KRW. -/
noncomputable def ceilTo1000 (value : ℝ) : ℝ := (⌈value / 1000⌉ : ℝ) * 1000

/-- Tier 3 breakdown (interface `Tier3Breakdown`). -/
structure Tier3Breakdown where
  companyMarginRate : ℝ
  companyMargin : ℝ
  freightRiskRate : ℝ
  freightRiskSurcharge : ℝ
  manualAdjustmentRate : ℝ
  manualAdjustment : ℝ
  subtotalBeforeRounding : ℝ
  finalPrice : ℝ

/-- Function `calculateTier3(tier2Price, freightType, manualAdjustmentRate, costs)`. -/
noncomputable def calculateTier3 (tier2Price : ℝ) (freightType : Option String)
    (manualAdjustmentRate : ℝ) (costs : CostVariables) : Tier3Breakdown :=
  let companyMarginRate := costs.company_margin_rate
  let companyMargin : ℝ := (jsRound (tier2Price * companyMarginRate) : ℝ)
  let freightRiskRate := getFreightRiskRate freightType costs
  let freightRiskSurcharge : ℝ := (jsRound (tier2Price * freightRiskRate) : ℝ)
  let manualAdjustment : ℝ := (jsRound (tier2Price * manualAdjustmentRate) : ℝ)
  let subtotalBeforeRounding :=
    tier2Price + companyMargin + freightRiskSurcharge + manualAdjustment
  let finalPrice := ceilTo1000 subtotalBeforeRounding
  ⟨companyMarginRate, companyMargin, freightRiskRate, freightRiskSurcharge,
    manualAdjustmentRate, manualAdjustment, subtotalBeforeRounding, finalPrice⟩

-- ══════════════════════════════════════════════════════════════════
-- Batch runner (runBatchSimulation server action)
-- ══════════════════════════════════════════════════════════════════

/-- The fields of a batch request the batch loop itself reads.  The source
takes untyped `any` inputs; absent fields are `none` (the error label uses
`input.origin ?? "?"`). -/
structure SimInput where
  origin : Option String
  destination : Option String
  vehicleType : Option String
  freightType : Option String
  manualAdjustmentRate : Option ℝ

/-- Per-request error entry of the batch runner. -/
structure BatchErrorEntry where
  index : ℕ
  route : String
  message : String
deriving DecidableEq

/-- The error label `` `${input.origin ?? "?"} → ${input.destination ?? "?"}` ``. -/
def routeLabel (input : SimInput) : String :=
  input.origin.getD "?" ++ " → " ++ input.destination.getD "?"

/-- The `for` loop of `runBatchSimulation` from index `i` on: each request
is priced independently; a success is pushed to `results`, a failure to
`errors` with the request's original index and route label.  The
per-request pricing run (`calculateFPHPrice`, an async DB-backed call) is
abstracted as the `calcPrice` parameter; a thrown exception is modelled as
`Except.error` carrying the message. -/
def runBatchLoop {β : Type} (calcPrice : SimInput → Except String β) (i : ℕ) :
    List SimInput → List β × List BatchErrorEntry
  | [] => ([], [])
  | input :: rest =>
    let tail := runBatchLoop calcPrice (i + 1) rest
    match calcPrice input with
    | Except.ok r => (r :: tail.1, tail.2)
    | Except.error m => (tail.1, ⟨i, routeLabel input, m⟩ :: tail.2)

/-- Function `runBatchSimulation(inputs)` with the pricing call abstracted. -/
def runBatchSimulation {β : Type} (calcPrice : SimInput → Except String β)
    (inputs : List SimInput) : List β × List BatchErrorEntry :=
  runBatchLoop calcPrice 0 inputs

-- ══════════════════════════════════════════════════════════════════
-- Spec-side formulations (written from the spec's words, for
-- comparison with the definitions above taken from the source)
-- ══════════════════════════════════════════════════════════════════

/-- Size factor as the spec words it: `min(sampleSize/30, 1.0)`. -/
noncomputable def specSizeFactor (sampleSize : ℕ) : ℝ := min ((sampleSize : ℝ) / 30) 1.0

/-- Consistency factor as the spec words it: `max(0, 1 - CV)` with `CV` the
population standard deviation divided by the mean of the filtered values,
and `1.0` when there are fewer than 2 filtered values or the mean is
nonpositive. -/
noncomputable def specConsistencyFactor (filteredValues : List ℝ) : ℝ :=
  let mean := filteredValues.sum / (filteredValues.length : ℝ)
  if filteredValues.length < 2 ∨ mean ≤ 0 then 1.0
  else
    let variance :=
      (filteredValues.map fun v => (v - mean) ^ 2).sum / (filteredValues.length : ℝ)
    max 0 (1.0 - Real.sqrt variance / mean)

/-- Rounding to two decimals. -/
noncomputable def round2 (x : ℝ) : ℝ := (jsRound (x * 100) : ℝ) / 100

/-- The confidence formula exactly as the claim states it: the 2-decimal
rounding applied to the factor blend first, the fallback penalty 0.7
multiplied in afterwards. -/
noncomputable def claimedConfidenceRoundFirst (sampleSize : ℕ) (filteredValues : List ℝ)
    (isFallback : Bool) : ℝ :=
  round2 (specSizeFactor sampleSize * 0.6 + specConsistencyFactor filteredValues * 0.4) *
    (if isFallback then 0.7 else 1.0)

/-- The amended confidence formula: the fallback penalty multiplied into the
factor blend first, the 2-decimal rounding applied afterwards. -/
noncomputable def specConfidencePenaltyFirst (sampleSize : ℕ) (filteredValues : List ℝ)
    (isFallback : Bool) : ℝ :=
  round2 ((specSizeFactor sampleSize * 0.6 + specConsistencyFactor filteredValues * 0.4) *
    (if isFallback then 0.7 else 1.0))

-- ══════════════════════════════════════════════════════════════════
-- C1: confidence-score formula and its rounding order
-- ══════════════════════════════════════════════════════════════════

/-- C1 (counterexample): for a fallback group with 1 sample the source's
`computeConfidence` yields 0.29 — `Math.round` applied after the 0.7
penalty — while the claimed formula (rounding before the penalty) yields
`0.42 × 0.7 = 0.294`.  This input is reached by `analyzeMarketData` on any
single-observation batch. -/
theorem computeConfidence_not_round_before_penalty :
    computeConfidence 1 [800000] true = 29 / 100 ∧
      claimedConfidenceRoundFirst 1 [800000] true = 147 / 500 ∧
      (29 / 100 : ℝ) ≠ 147 / 500 := by
  refine ⟨?_, ?_, by norm_num⟩
  · show computeConfidence 1 [800000] true = 29 / 100
    simp only [computeConfidence, List.length_cons, List.length_nil, jsRound]
    norm_num [min_def]
  · show claimedConfidenceRoundFirst 1 [800000] true = 147 / 500
    simp only [claimedConfidenceRoundFirst, specSizeFactor, specConsistencyFactor, round2,
      List.length_cons, List.length_nil, jsRound]
    norm_num [min_def]

/-- C1 (amended): the emitted confidence score equals
`round((sizeFactor·0.6 + consistencyFactor·0.4) × (0.7 if fallback else 1.0), 2)`
— the fallback penalty is multiplied in before the 2-decimal rounding, not
after it. -/
theorem computeConfidence_eq_spec_penalty_first (sampleSize : ℕ) (filteredValues : List ℝ)
    (isFallback : Bool) :
    computeConfidence sampleSize filteredValues isFallback =
      specConfidencePenaltyFirst sampleSize filteredValues isFallback := by
  simp only [computeConfidence, specConfidencePenaltyFirst, specSizeFactor,
    specConsistencyFactor, round2]
  rcases lt_or_le filteredValues.length 2 with h1 | h1
  · simp [h1, Nat.not_le.mpr h1]
  · rcases lt_or_le 0 (filteredValues.sum / (filteredValues.length : ℝ)) with h2 | h2
    · simp [h1, h2, not_lt.mpr h1, not_le.mpr h2]
    · simp [h1, Nat.not_lt.mpr h1, not_lt.mpr h2, h2]

-- ══════════════════════════════════════════════════════════════════
-- C4: confidence scores always lie in [0, 1]
-- ══════════════════════════════════════════════════════════════════

/-- Rounding to two decimals keeps a value of `[0, 1]` inside `[0, 1]`. -/
theorem jsRound_div_100_mem_unit (x : ℝ) (hx0 : 0 ≤ x) (hx1 : x ≤ 1) :
    0 ≤ (jsRound (x * 100) : ℝ) / 100 ∧ (jsRound (x * 100) : ℝ) / 100 ≤ 1 := by
  unfold jsRound
  constructor
  · apply div_nonneg _ (by norm_num)
    have h : (0 : ℤ) ≤ ⌊x * 100 + 1 / 2⌋ := Int.le_floor.mpr (by push_cast; nlinarith)
    exact_mod_cast h
  · rw [div_le_one (by norm_num)]
    have h : ⌊x * 100 + 1 / 2⌋ ≤ 100 := by
      have h2 : ⌊x * 100 + 1 / 2⌋ < 101 :=
        Int.floor_lt.mpr (by push_cast; nlinarith)
      omega
    exact_mod_cast h

/-- The raw `computeConfidence` value always lies in `[0, 1]`. -/
theorem computeConfidence_bounds (sampleSize : ℕ) (filteredValues : List ℝ)
    (isFallback : Bool) :
    0 ≤ computeConfidence sampleSize filteredValues isFallback ∧
      computeConfidence sampleSize filteredValues isFallback ≤ 1 := by
  simp only [computeConfidence]
  have hs0 : (0 : ℝ) ≤ min ((sampleSize : ℝ) / 30) 1.0 := le_min (by positivity) (by norm_num)
  have hs1 : min ((sampleSize : ℝ) / 30) 1.0 ≤ 1 := min_le_of_right_le (by norm_num)
  have hc : 0 ≤ (if 2 ≤ filteredValues.length then
        if 0 < filteredValues.sum / (filteredValues.length : ℝ) then
          max 0 (1.0 - Real.sqrt
            ((filteredValues.map fun v => (v - filteredValues.sum /
              (filteredValues.length : ℝ)) ^ 2).sum / (filteredValues.length : ℝ)) /
            (filteredValues.sum / (filteredValues.length : ℝ)))
        else (1.0 : ℝ)
      else (1.0 : ℝ)) ∧ (if 2 ≤ filteredValues.length then
        if 0 < filteredValues.sum / (filteredValues.length : ℝ) then
          max 0 (1.0 - Real.sqrt
            ((filteredValues.map fun v => (v - filteredValues.sum /
              (filteredValues.length : ℝ)) ^ 2).sum / (filteredValues.length : ℝ)) /
            (filteredValues.sum / (filteredValues.length : ℝ)))
        else (1.0 : ℝ)
      else (1.0 : ℝ)) ≤ 1 := by
    split_ifs with h1 h2
    · refine ⟨le_max_left _ _, max_le (by norm_num) ?_⟩
      have hcv : 0 ≤ Real.sqrt
          ((filteredValues.map fun v => (v - filteredValues.sum /
            (filteredValues.length : ℝ)) ^ 2).sum / (filteredValues.length : ℝ)) /
          (filteredValues.sum / (filteredValues.length : ℝ)) :=
        div_nonneg (Real.sqrt_nonneg _) h2.le
      linarith
    · norm_num
    · norm_num
  have hp0 : (0 : ℝ) ≤ (if isFallback then 0.7 else 1.0) := by split_ifs <;> norm_num
  have hp1 : (if isFallback then (0.7 : ℝ) else 1.0) ≤ 1 := by split_ifs <;> norm_num
  exact jsRound_div_100_mem_unit _ (by nlinarith [hs0, hs1, hc.1, hc.2, hp0, hp1])
    (by nlinarith [hs0, hs1, hc.1, hc.2, hp0, hp1])

/-- Every result accumulated by the step-3 loop is either an inherited one
or the emission of one of the traversed groups. -/
theorem mem_foldl_processGroup (pg : List (String × PriceGroup)) :
    ∀ (gs : List (String × PriceGroup)) (st : AnalyzeState) (r : RouteMedianResult),
      r ∈ (gs.foldl (fun st kg => processGroup pg st kg.2) st).results →
      r ∈ st.results ∨ ∃ kg ∈ gs,
        (MIN_SAMPLE_SIZE ≤ kg.2.prices.length ∧ r = exactResult kg.2) ∨
        (kg.2.prices.length < MIN_SAMPLE_SIZE ∧ r = smallGroupResult pg kg.2) := by
  intro gs
  induction gs with
  | nil => intro st r h; exact Or.inl h
  | cons kg gs ih =>
    intro st r h
    rcases ih (processGroup pg st kg.2) r h with h' | ⟨kg', hkg', hcase⟩
    · simp only [processGroup] at h'
      split_ifs at h' with hbig hseen
      · rcases List.mem_append.mp h' with h'' | h''
        · exact Or.inl h''
        · exact Or.inr ⟨kg, List.mem_cons_self kg gs,
            Or.inl ⟨hbig, (List.mem_singleton.mp h'').symm ▸ rfl⟩⟩
      · exact Or.inl h'
      · rcases List.mem_append.mp h' with h'' | h''
        · exact Or.inl h''
        · exact Or.inr ⟨kg, List.mem_cons_self kg gs,
            Or.inr ⟨Nat.lt_of_not_le hbig, (List.mem_singleton.mp h'').symm ▸ rfl⟩⟩
    · exact Or.inr ⟨kg', List.mem_cons_of_mem kg hkg', hcase⟩

/-- Membership characterization of the unsorted analyzer output. -/
theorem analyzeCore_mem (data : List PriceDataPoint) (r : RouteMedianResult)
    (h : r ∈ analyzeCore data) :
    ∃ kg ∈ routeGroups data,
      (MIN_SAMPLE_SIZE ≤ kg.2.prices.length ∧ r = exactResult kg.2) ∨
      (kg.2.prices.length < MIN_SAMPLE_SIZE ∧
        r = smallGroupResult (provinceGroups data) kg.2) := by
  rcases mem_foldl_processGroup (provinceGroups data) (routeGroups data) ⟨[], []⟩ r h with
    h' | h'
  · exact absurd h' (List.not_mem_nil r)
  · exact h'

/-- Sorting does not change the emitted set. -/
theorem analyzeMarketData_mem (data : List PriceDataPoint) (r : RouteMedianResult) :
    r ∈ analyzeMarketData data ↔ r ∈ analyzeCore data := List.mem_mergeSort

/-- The confidence score of a small-group emission is a `computeConfidence`
value. -/
theorem smallGroupResult_conf (pg : List (String × PriceGroup)) (g : PriceGroup) :
    ∃ n vs, (smallGroupResult pg g).confidenceScore = computeConfidence n vs true := by
  unfold smallGroupResult
  rcases pg.lookup (provinceRouteKey g.origin g.destination g.vehicleType) with _ | pgrp
  · exact ⟨_, _, rfl⟩
  · by_cases h : pgrp.prices.length < MIN_SAMPLE_SIZE
    · simp only [h, if_true]
      exact ⟨_, _, rfl⟩
    · simp only [h, if_false]
      exact ⟨_, _, rfl⟩

/-- C4: the confidence score computed by the analyzer lies in `[0, 1]` for
every sample size, filtered list and fallback status, and consequently
every result emitted by `analyzeMarketData` has `confidenceScore ∈ [0, 1]`. -/
theorem confidence_score_in_unit_interval :
    (∀ (sampleSize : ℕ) (filteredValues : List ℝ) (isFallback : Bool),
      0 ≤ computeConfidence sampleSize filteredValues isFallback ∧
        computeConfidence sampleSize filteredValues isFallback ≤ 1) ∧
      ∀ (data : List PriceDataPoint) (r : RouteMedianResult),
        r ∈ analyzeMarketData data → 0 ≤ r.confidenceScore ∧ r.confidenceScore ≤ 1 := by
  refine ⟨fun n vs fb => computeConfidence_bounds n vs fb, fun data r hr => ?_⟩
  rcases analyzeCore_mem data r ((analyzeMarketData_mem data r).mp hr) with
    ⟨kg, _, ⟨_, hr'⟩ | ⟨_, hr'⟩⟩
  · rw [hr']
    exact computeConfidence_bounds _ _ _
  · rw [hr']
    obtain ⟨n, vs, he⟩ := smallGroupResult_conf (provinceGroups data) kg.2
    rw [he]
    exact computeConfidence_bounds _ _ _

/-- Concrete single-observation batch used by several witnesses. -/
def dataSingle : List PriceDataPoint :=
  [⟨"Seoul/Gangnam", "Busan/Haeundae", "11t", 800000⟩]

/-- The unsorted analyzer output on `dataSingle` is a single fallback
emission. -/
theorem analyzeCore_dataSingle :
    analyzeCore dataSingle =
      [smallGroupResult (provinceGroups dataSingle)
        ⟨"Seoul/Gangnam", "Busan/Haeundae", "11t", [800000]⟩] := by
  simp [analyzeCore, routeGroups, addPoint, routeKey, processGroup, MIN_SAMPLE_SIZE,
    dataSingle]

/-- C4 (witness): the emitted-result bound applied to the single result of
a concrete one-observation batch. -/
theorem confidence_score_in_unit_interval_witness :
    smallGroupResult (provinceGroups dataSingle)
        ⟨"Seoul/Gangnam", "Busan/Haeundae", "11t", [800000]⟩ ∈
        analyzeMarketData dataSingle ∧
      0 ≤ (smallGroupResult (provinceGroups dataSingle)
          ⟨"Seoul/Gangnam", "Busan/Haeundae", "11t", [800000]⟩).confidenceScore ∧
      (smallGroupResult (provinceGroups dataSingle)
          ⟨"Seoul/Gangnam", "Busan/Haeundae", "11t", [800000]⟩).confidenceScore ≤ 1 := by
  have hmem : smallGroupResult (provinceGroups dataSingle)
      ⟨"Seoul/Gangnam", "Busan/Haeundae", "11t", [800000]⟩ ∈ analyzeMarketData dataSingle := by
    rw [analyzeMarketData_mem, analyzeCore_dataSingle]
    exact List.mem_singleton.mpr rfl
  exact ⟨hmem, confidence_score_in_unit_interval.2 dataSingle _ hmem⟩

-- ══════════════════════════════════════════════════════════════════
-- C5: Tier 2 pass-through when no market result exists
-- ══════════════════════════════════════════════════════════════════

/-- C5: when neither an exact-route nor a province-level market result is
found for the requested origin/destination, Tier 2 passes the Tier 1 base
price through unchanged with `confidenceScore = 0` and `hasMarketData =
false`. -/
theorem tier2_pass_through (results : List RouteMedianResult)
    (origin destination : String) (tier1Base : ℝ)
    (h : findMarketResult results origin destination = none) :
    (calculateTier2 tier1Base (findMarketResult results origin destination)).adjustedPrice =
        tier1Base ∧
      (calculateTier2 tier1Base (findMarketResult results origin destination)).confidenceScore =
        0 ∧
      (calculateTier2 tier1Base (findMarketResult results origin destination)).hasMarketData =
        false := by
  rw [h]
  exact ⟨rfl, rfl, rfl⟩

/-- C5 (witness): the pass-through at a concrete empty analyzer output and
the Tier 1 base 393546. -/
theorem tier2_pass_through_witness :
    findMarketResult [] "Seoul/Gangnam" "Busan/Haeundae" = none ∧
      (calculateTier2 393546
          (findMarketResult [] "Seoul/Gangnam" "Busan/Haeundae")).adjustedPrice = 393546 ∧
      (calculateTier2 393546
          (findMarketResult [] "Seoul/Gangnam" "Busan/Haeundae")).confidenceScore = 0 ∧
      (calculateTier2 393546
          (findMarketResult [] "Seoul/Gangnam" "Busan/Haeundae")).hasMarketData = false :=
  ⟨rfl, tier2_pass_through [] "Seoul/Gangnam" "Busan/Haeundae" 393546 rfl⟩

-- ══════════════════════════════════════════════════════════════════
-- C6: Tier 3 rounding law
-- ══════════════════════════════════════════════════════════════════

/-- The ceiling never decreases the value. -/
theorem le_ceilTo1000 (v : ℝ) : v ≤ ceilTo1000 v := by
  unfold ceilTo1000
  have h := Int.le_ceil (v / 1000)
  have h2 : v / 1000 * 1000 ≤ (⌈v / 1000⌉ : ℝ) * 1000 :=
    mul_le_mul_of_nonneg_right h (by norm_num)
  calc v = v / 1000 * 1000 := by field_simp
    _ ≤ (⌈v / 1000⌉ : ℝ) * 1000 := h2

/-- A real that is an integer multiple of 1000 is a fixed point. -/
theorem ceilTo1000_int_mul (k : ℤ) : ceilTo1000 ((1000 : ℝ) * k) = 1000 * k := by
  unfold ceilTo1000
  rw [mul_comm (1000 : ℝ) (k : ℝ), mul_div_assoc, div_self (by norm_num : (1000 : ℝ) ≠ 0),
    mul_one, Int.ceil_intCast, mul_comm]

/-- C6: `finalPrice = ceil(subtotalBeforeRounding / 1000) × 1000`, so the
final price is always a multiple of 1000, never below the subtotal
(rounding goes up regardless of the sign of `manualAdjustment`), and a
value already divisible by 1000 is left unchanged; in particular
`ceilTo1000 850000 = 850000` and `ceilTo1000 850001 = 851000`. -/
theorem tier3_final_price_ceiling (tier2Price : ℝ) (freightType : Option String)
    (manualAdjustmentRate : ℝ) (costs : CostVariables) :
    (calculateTier3 tier2Price freightType manualAdjustmentRate costs).finalPrice =
        ceilTo1000
          (calculateTier3 tier2Price freightType manualAdjustmentRate
              costs).subtotalBeforeRounding ∧
      (∃ k : ℤ,
        (calculateTier3 tier2Price freightType manualAdjustmentRate costs).finalPrice =
          1000 * k) ∧
      (calculateTier3 tier2Price freightType manualAdjustmentRate
            costs).subtotalBeforeRounding ≤
        (calculateTier3 tier2Price freightType manualAdjustmentRate costs).finalPrice ∧
      ceilTo1000 850000 = 850000 ∧
      ceilTo1000 850001 = 851000 ∧
      ∀ k : ℤ, ceilTo1000 ((1000 : ℝ) * k) = 1000 * k := by
  refine ⟨rfl, ?_, ?_, ?_, ?_, fun k => ceilTo1000_int_mul k⟩
  · exact ⟨⌈(calculateTier3 tier2Price freightType manualAdjustmentRate
        costs).subtotalBeforeRounding / 1000⌉, by rw [mul_comm]; rfl⟩
  · exact le_ceilTo1000 _
  · have h : (850000 : ℝ) / 1000 = ((850 : ℤ) : ℝ) := by norm_num
    rw [ceilTo1000, h, Int.ceil_intCast]
    norm_num
  · have h : ⌈(850001 : ℝ) / 1000⌉ = 851 := by
      rw [Int.ceil_eq_iff]
      norm_num
    rw [ceilTo1000, h]
    norm_num

-- ══════════════════════════════════════════════════════════════════
-- C10: freight-risk keyword matching order
-- ══════════════════════════════════════════════════════════════════

/-- C10: the three keyword sets are tested in the fixed order fragile →
refrigerated → hazardous with case-insensitive substring matching, the
first matching set's rate wins (so a description matching several sets
gets the fragile rate), and an absent or unmatched freight type yields
rate 0. -/
theorem freight_risk_keyword_priority (costs : CostVariables) (ft : String) :
    getFreightRiskRate none costs = 0 ∧
      (fragileKeywords.any (fun k => includesSubstring (lowercase ft) k) = true →
        getFreightRiskRate (some ft) costs = costs.freight_risk_fragile) ∧
      (fragileKeywords.any (fun k => includesSubstring (lowercase ft) k) = false →
        refrigeratedKeywords.any (fun k => includesSubstring (lowercase ft) k) = true →
        getFreightRiskRate (some ft) costs = costs.freight_risk_refrigerated) ∧
      (fragileKeywords.any (fun k => includesSubstring (lowercase ft) k) = false →
        refrigeratedKeywords.any (fun k => includesSubstring (lowercase ft) k) = false →
        hazardousKeywords.any (fun k => includesSubstring (lowercase ft) k) = true →
        getFreightRiskRate (some ft) costs = costs.freight_risk_hazardous) ∧
      (fragileKeywords.any (fun k => includesSubstring (lowercase ft) k) = false →
        refrigeratedKeywords.any (fun k => includesSubstring (lowercase ft) k) = false →
        hazardousKeywords.any (fun k => includesSubstring (lowercase ft) k) = false →
        getFreightRiskRate (some ft) costs = 0) := by
  refine ⟨rfl, ?_, ?_, ?_, ?_⟩
  · intro h1
    simp [getFreightRiskRate, h1]
  · intro h1 h2
    simp [getFreightRiskRate, h1, h2]
  · intro h1 h2 h3
    simp [getFreightRiskRate, h1, h2, h3]
  · intro h1 h2 h3
    simp [getFreightRiskRate, h1, h2, h3]

/-- C10 (witness): `"Frozen Glass"` matches both the fragile set (via
`"glass"`) and the refrigerated set (via `"frozen"`) and receives the
fragile rate; `"General"` matches nothing and receives 0. -/
theorem freight_risk_keyword_priority_witness :
    getFreightRiskRate (some "Frozen Glass") COST_DEFAULTS =
        COST_DEFAULTS.freight_risk_fragile ∧
      getFreightRiskRate (some "General") COST_DEFAULTS = 0 ∧
      getFreightRiskRate none COST_DEFAULTS = 0 :=
  ⟨(freight_risk_keyword_priority COST_DEFAULTS "Frozen Glass").2.1 (by decide),
    (freight_risk_keyword_priority COST_DEFAULTS "General").2.2.2.2 (by decide) (by decide)
      (by decide),
    (freight_risk_keyword_priority COST_DEFAULTS "General").1⟩

-- ══════════════════════════════════════════════════════════════════
-- C8: batch isolation
-- ══════════════════════════════════════════════════════════════════

/-- Every request ends up in exactly one of the two output lists, so the
lengths add up. -/
theorem runBatchLoop_length {β : Type} (c : SimInput → Except String β) :
    ∀ (inputs : List SimInput) (i : ℕ),
      (runBatchLoop c i inputs).1.length + (runBatchLoop c i inputs).2.length =
        inputs.length := by
  intro inputs
  induction inputs with
  | nil => intro i; rfl
  | cons input rest ih =>
    intro i
    simp only [runBatchLoop]
    cases hc : c input with
    | ok r =>
      have := ih (i + 1)
      simp only [hc, List.length_cons]
      omega
    | error m =>
      have := ih (i + 1)
      simp only [hc, List.length_cons]
      omega

/-- Error entries produced from start index `i` carry indices in
`[i, i + length)`. -/
theorem runBatchLoop_index_bound {β : Type} (c : SimInput → Except String β) :
    ∀ (inputs : List SimInput) (i : ℕ) (e : BatchErrorEntry),
      e ∈ (runBatchLoop c i inputs).2 → i ≤ e.index ∧ e.index < i + inputs.length := by
  intro inputs
  induction inputs with
  | nil => intro i e h; exact absurd h (List.not_mem_nil e)
  | cons input rest ih =>
    intro i e h
    simp only [runBatchLoop] at h
    cases hc : c input with
    | ok r =>
      rw [hc] at h
      have := ih (i + 1) e h
      constructor
      · omega
      · simp only [List.length_cons]; omega
    | error m =>
      rw [hc] at h
      rcases List.mem_cons.mp h with h' | h'
      · rw [h']
        simp only [List.length_cons]
        omega
      · have := ih (i + 1) e h'
        constructor
        · omega
        · simp only [List.length_cons]; omega

/-- Per-request accounting of the batch loop: the request at offset `j`
contributes exactly one error entry (with its original index and route
label) when its pricing run fails, and exactly one result and no error
entry when it succeeds. -/
theorem runBatchLoop_get {β : Type} (c : SimInput → Except String β) :
    ∀ (inputs : List SimInput) (i0 j : ℕ) (h : j < inputs.length),
      (∀ m, c (inputs.get ⟨j, h⟩) = Except.error m →
        (⟨i0 + j, routeLabel (inputs.get ⟨j, h⟩), m⟩ : BatchErrorEntry) ∈
            (runBatchLoop c i0 inputs).2 ∧
          (runBatchLoop c i0 inputs).2.countP (fun e => e.index == i0 + j) = 1) ∧
      (∀ r, c (inputs.get ⟨j, h⟩) = Except.ok r →
        r ∈ (runBatchLoop c i0 inputs).1 ∧
          (runBatchLoop c i0 inputs).2.countP (fun e => e.index == i0 + j) = 0) := by
  intro inputs
  induction inputs with
  | nil => intro i0 j h; exact absurd h (Nat.not_lt_zero j)
  | cons input rest ih =>
    intro i0 j h
    have htail0 : ∀ e ∈ (runBatchLoop c (i0 + 1) rest).2, ¬(e.index == i0) = true := by
      intro e he
      have := runBatchLoop_index_bound c rest (i0 + 1) e he
      simp only [beq_iff_eq]
      omega
    cases j with
    | zero =>
      have hget : (input :: rest).get ⟨0, h⟩ = input := rfl
      constructor
      · intro m hm
        rw [hget] at hm
        simp only [runBatchLoop, hm, Nat.add_zero]
        constructor
        · exact List.mem_cons_self _ _
        · rw [List.countP_cons]
          have hz : (runBatchLoop c (i0 + 1) rest).2.countP (fun e => e.index == i0) = 0 :=
            List.countP_eq_zero.mpr htail0
          simp [hz]
      · intro r hr
        rw [hget] at hr
        simp only [runBatchLoop, hr, Nat.add_zero]
        exact ⟨List.mem_cons_self _ _, List.countP_eq_zero.mpr htail0⟩
    | succ j' =>
      have h' : j' < rest.length := Nat.lt_of_succ_lt_succ h
      have hget : (input :: rest).get ⟨j' + 1, h⟩ = rest.get ⟨j', h'⟩ := rfl
      have hidx : i0 + (j' + 1) = (i0 + 1) + j' := by omega
      obtain ⟨iherr, ihok⟩ := ih (i0 + 1) j' h'
      constructor
      · intro m hm
        rw [hget] at hm
        obtain ⟨hmem, hcount⟩ := iherr m hm
        simp only [runBatchLoop, hget, hidx]
        cases hc : c input with
        | ok r => exact ⟨hmem, hcount⟩
        | error m' =>
          constructor
          · exact List.mem_cons_of_mem _ hmem
          · rw [List.countP_cons]
            have hne : ((⟨i0, routeLabel input, m'⟩ : BatchErrorEntry).index == (i0 + 1) + j') =
                false := by
              simp only [beq_eq_false_iff_ne, ne_eq]; omega
            simp [hne, hcount]
      · intro r hr
        rw [hget] at hr
        obtain ⟨hmem, hcount⟩ := ihok r hr
        simp only [runBatchLoop, hget, hidx]
        cases hc : c input with
        | ok r' => exact ⟨List.mem_cons_of_mem _ hmem, hcount⟩
        | error m' =>
          constructor
          · exact hmem
          · rw [List.countP_cons]
            have hne : ((⟨i0, routeLabel input, m'⟩ : BatchErrorEntry).index == (i0 + 1) + j') =
                false := by
              simp only [beq_eq_false_iff_ne, ne_eq]; omega
            simp [hne, hcount]

/-- C8: every batch request is processed — a failure at index `i` is
recorded as exactly one error entry carrying `i` and the
`"origin → destination"` label while later requests still run, a success
contributes to the results and to no error entry, and
`|results| + |errors| = |requests|`. -/
theorem batch_isolation {β : Type} (calcPrice : SimInput → Except String β)
    (inputs : List SimInput) :
    (runBatchSimulation calcPrice inputs).1.length +
        (runBatchSimulation calcPrice inputs).2.length = inputs.length ∧
      ∀ (i : ℕ) (h : i < inputs.length),
        (∀ m, calcPrice (inputs.get ⟨i, h⟩) = Except.error m →
          (⟨i, routeLabel (inputs.get ⟨i, h⟩), m⟩ : BatchErrorEntry) ∈
              (runBatchSimulation calcPrice inputs).2 ∧
            (runBatchSimulation calcPrice inputs).2.countP (fun e => e.index == i) = 1) ∧
        ∀ r, calcPrice (inputs.get ⟨i, h⟩) = Except.ok r →
          r ∈ (runBatchSimulation calcPrice inputs).1 ∧
            (runBatchSimulation calcPrice inputs).2.countP (fun e => e.index == i) = 0 := by
  refine ⟨runBatchLoop_length calcPrice inputs 0, fun i h => ?_⟩
  have h0 : (0 : ℕ) + i = i := Nat.zero_add i
  obtain ⟨herr, hok⟩ := runBatchLoop_get calcPrice inputs 0 i h
  rw [h0] at herr hok
  exact ⟨herr, hok⟩

/-- Concrete batch with a failing middle request. -/
def batchInputsW : List SimInput :=
  [⟨some "Seoul/Gangnam", some "Busan/Haeundae", some "11t", some "General", none⟩,
   ⟨some "bad", none, none, none, none⟩,
   ⟨some "Daegu", some "Ulsan/Nam", some "5t", none, none⟩]

/-- Concrete pricing stub: fails on origin `"bad"`, succeeds otherwise. -/
def batchCalcW : SimInput → Except String ℕ := fun input =>
  match input.origin with
  | some "bad" => Except.error "boom"
  | _ => Except.ok 7

/-- C8 (witness): in a concrete 3-request batch whose middle request fails,
the failure is recorded once under index 1 with label `"bad → ?"`, and the
last request is still processed. -/
theorem batch_isolation_witness :
    ((⟨1, "bad → ?", "boom"⟩ : BatchErrorEntry) ∈
        (runBatchSimulation batchCalcW batchInputsW).2 ∧
      (runBatchSimulation batchCalcW batchInputsW).2.countP (fun e => e.index == 1) = 1) ∧
    (7 ∈ (runBatchSimulation batchCalcW batchInputsW).1 ∧
      (runBatchSimulation batchCalcW batchInputsW).2.countP (fun e => e.index == 2) = 0) := by
  have h1 : (1 : ℕ) < batchInputsW.length := by norm_num [batchInputsW]
  have h2 : (2 : ℕ) < batchInputsW.length := by norm_num [batchInputsW]
  exact ⟨((batch_isolation batchCalcW batchInputsW).2 1 h1).1 "boom" rfl,
    ((batch_isolation batchCalcW batchInputsW).2 2 h2).2 7 rfl⟩

-- ══════════════════════════════════════════════════════════════════
-- C7: distance symmetry
-- ══════════════════════════════════════════════════════════════════

/-- A successful association-list lookup is a member. -/
theorem lookup_mem {β : Type} (l : List (String × β)) (k : String) (v : β)
    (h : l.lookup k = some v) : (k, v) ∈ l := by
  induction l with
  | nil => exact absurd h (by simp [List.lookup])
  | cons kv rest ih =>
    rw [List.lookup] at h
    by_cases hk : (k == kv.1) = true
    · rw [hk] at h
      have : kv = (k, v) := by
        cases kv
        simp only [Option.some.injEq] at h
        simp only [beq_iff_eq] at hk
        simp [hk.symm, h.symm]
      rw [← this]
      exact List.mem_cons_self kv rest
    · rw [Bool.not_eq_true] at hk
      rw [hk] at h
      exact List.mem_cons_of_mem kv (ih h)

/-- Split a character list at the first `'→'`. -/
def splitAtArrow : List Char → List Char × List Char
  | [] => ([], [])
  | c :: rest =>
    if c = '→' then ([], rest)
    else
      let s := splitAtArrow rest
      (c :: s.1, s.2)

/-- Splitting recovers the components around an arrow when the prefix is
arrow-free. -/
theorem splitAtArrow_append (a b : List Char) (ha : '→' ∉ a) :
    splitAtArrow (a ++ '→' :: b) = (a, b) := by
  induction a with
  | nil => simp [splitAtArrow]
  | cons c rest ih =>
    have hc : c ≠ '→' := fun h => ha (h ▸ List.mem_cons_self c rest)
    have hrest : '→' ∉ rest := fun h => ha (List.mem_cons_of_mem c h)
    simp [splitAtArrow, hc, ih hrest]

/-- The corridor keys split into unordered province pairs. -/
def roadPairs : List (List Char × List Char) :=
  ROAD_DISTANCES.map fun kv => splitAtArrow kv.1.data

/-- Every corridor key contains exactly one arrow. -/
theorem road_keys_one_arrow :
    ∀ kv ∈ ROAD_DISTANCES, kv.1.data.count '→' = 1 := by decide

/-- No corridor pair occurs in both orders. -/
theorem road_pairs_no_swap :
    ∀ pr ∈ roadPairs, (pr.2, pr.1) ∉ roadPairs := by decide

/-- Concatenating around an arrow at character level. -/
theorem arrow_key_data (a b : String) :
    (a ++ "→" ++ b).data = a.data ++ '→' :: b.data := by
  have harr : ("→" : String).data = ['→'] := rfl
  simp [String.data_append, harr]

/-- The two-way corridor lookup is symmetric in its arguments: the corridor
table holds each unordered pair in a single orientation, so at most one of
the two probes can succeed. -/
theorem lookupDistance_symm (prov1 prov2 : String) :
    lookupDistance prov1 prov2 = lookupDistance prov2 prov1 := by
  unfold lookupDistance
  cases h1 : ROAD_DISTANCES.lookup (prov1 ++ "→" ++ prov2) with
  | none =>
    cases h2 : ROAD_DISTANCES.lookup (prov2 ++ "→" ++ prov1) with
    | none => rfl
    | some w => rfl
  | some v =>
    cases h2 : ROAD_DISTANCES.lookup (prov2 ++ "→" ++ prov1) with
    | none => rfl
    | some w =>
      exfalso
      have hm1 := lookup_mem _ _ _ h1
      have hm2 := lookup_mem _ _ _ h2
      have hc1 := road_keys_one_arrow _ hm1
      have hc2 := road_keys_one_arrow _ hm2
      rw [arrow_key_data] at hc1 hc2
      simp only [List.count_append, List.count_cons_self] at hc1 hc2
      have hp1 : '→' ∉ prov1.data := by
        rw [← List.count_eq_zero]
        omega
      have hp2 : '→' ∉ prov2.data := by
        rw [← List.count_eq_zero]
        omega
      have hsp1 : splitAtArrow (prov1 ++ "→" ++ prov2).data = (prov1.data, prov2.data) := by
        rw [arrow_key_data]
        exact splitAtArrow_append _ _ hp1
      have hsp2 : splitAtArrow (prov2 ++ "→" ++ prov1).data = (prov2.data, prov1.data) := by
        rw [arrow_key_data]
        exact splitAtArrow_append _ _ hp2
      have hpr1 : (prov1.data, prov2.data) ∈ roadPairs :=
        List.mem_map.mpr ⟨_, hm1, hsp1⟩
      have hpr2 : (prov2.data, prov1.data) ∈ roadPairs :=
        List.mem_map.mpr ⟨_, hm2, hsp2⟩
      exact road_pairs_no_swap _ hpr1 hpr2

/-- The haversine estimate is symmetric in its two coordinates. -/
theorem haversineKm_symm (c1 c2 : ℝ × ℝ) : haversineKm c1 c2 = haversineKm c2 c1 := by
  have hsin : ∀ x y : ℝ, Real.sin ((x - y) * Real.pi / 180 / 2) ^ 2 =
      Real.sin ((y - x) * Real.pi / 180 / 2) ^ 2 := by
    intro x y
    rw [show (x - y) * Real.pi / 180 / 2 = -((y - x) * Real.pi / 180 / 2) by ring,
      Real.sin_neg]
    ring
  simp only [haversineKm]
  rw [hsin c2.1 c1.1, hsin c2.2 c1.2,
    mul_comm (Real.cos (c1.1 * Real.pi / 180)) (Real.cos (c2.1 * Real.pi / 180))]

/-- Symmetry of the full resolver in its `distanceKm` output. -/
theorem getRouteDistance_symm (origin destination : String) :
    (getRouteDistance origin destination).distanceKm =
      (getRouteDistance destination origin).distanceKm := by
  simp only [getRouteDistance]
  by_cases hp : extractProvince origin = extractProvince destination
  · simp [hp]
  · have hp' : ¬(extractProvince destination = extractProvince origin) :=
      fun h => hp h.symm
    rw [if_neg hp, if_neg hp', lookupDistance_symm]
    cases hdist : lookupDistance (extractProvince destination) (extractProvince origin) with
    | some known => rfl
    | none =>
      cases hc1 : PROVINCE_COORDS.lookup (extractProvince origin) with
      | none =>
        cases hc2 : PROVINCE_COORDS.lookup (extractProvince destination) with
        | none => rfl
        | some c2 => rfl
      | some c1 =>
        cases hc2 : PROVINCE_COORDS.lookup (extractProvince destination) with
        | none => rfl
        | some c2 => simp [haversineKm_symm c1 c2]

/-- C7: `getRouteDistance` is symmetric in its arguments — the
same-province default, the unordered corridor lookup, the haversine
estimate and the 200 km default all return the same `distanceKm` under
swapping; in particular for `"Seoul/X"`/`"Busan/Y"`. -/
theorem route_distance_symmetric :
    (∀ origin destination : String,
      (getRouteDistance origin destination).distanceKm =
        (getRouteDistance destination origin).distanceKm) ∧
      (getRouteDistance "Seoul/X" "Busan/Y").distanceKm =
        (getRouteDistance "Busan/Y" "Seoul/X").distanceKm :=
  ⟨getRouteDistance_symm, getRouteDistance_symm "Seoul/X" "Busan/Y"⟩

-- ══════════════════════════════════════════════════════════════════
-- Analyzer structure: group invariants (towards C2 and C3)
-- ══════════════════════════════════════════════════════════════════

/-- The part before the first slash never contains a slash. -/
theorem beforeSlash_no_slash (l : List Char) : '/' ∉ beforeSlash l := by
  induction l with
  | nil => simp [beforeSlash]
  | cons c rest ih =>
    by_cases hc : c = '/'
    · simp [beforeSlash, hc]
    · simp only [beforeSlash, if_neg hc, List.mem_cons]
      rintro (h | h)
      · exact hc h.symm
      · exact ih h

/-- On a slash-free list, `beforeSlash` is the identity. -/
theorem beforeSlash_of_no_slash (l : List Char) (h : '/' ∉ l) : beforeSlash l = l := by
  induction l with
  | nil => rfl
  | cons c rest ih =>
    have hc : c ≠ '/' := fun hcc => h (hcc ▸ List.mem_cons_self c rest)
    have hrest : '/' ∉ rest := fun hm => h (List.mem_cons_of_mem c hm)
    simp [beforeSlash, hc, ih hrest]

/-- Characters surviving the trim come from the original list. -/
theorem mem_of_mem_trimChars {a : Char} {l : List Char} (h : a ∈ trimChars l) : a ∈ l := by
  unfold trimChars at h
  rw [List.mem_reverse] at h
  have h1 := (List.dropWhile_sublist (l := (l.dropWhile Char.isWhitespace).reverse)
    (p := Char.isWhitespace)).mem h
  rw [List.mem_reverse] at h1
  exact (List.dropWhile_sublist (l := l) (p := Char.isWhitespace)).mem h1

/-- Rewriting `trimChars` in terms of Mathlib's `rdropWhile`. -/
theorem trimChars_eq_rdropWhile (l : List Char) :
    trimChars l = List.rdropWhile Char.isWhitespace (l.dropWhile Char.isWhitespace) := rfl

/-- Trimming is idempotent. -/
theorem trimChars_idem (l : List Char) : trimChars (trimChars l) = trimChars l := by
  have hA : (l.dropWhile Char.isWhitespace).dropWhile Char.isWhitespace =
      l.dropWhile Char.isWhitespace := List.dropWhile_idempotent _ _
  have hpre : List.rdropWhile Char.isWhitespace (l.dropWhile Char.isWhitespace) <+:
      l.dropWhile Char.isWhitespace := List.rdropWhile_prefix _ _
  have hdrop : (List.rdropWhile Char.isWhitespace
      (l.dropWhile Char.isWhitespace)).dropWhile Char.isWhitespace =
      List.rdropWhile Char.isWhitespace (l.dropWhile Char.isWhitespace) := by
    obtain ⟨s, hs⟩ := hpre
    cases ht : List.rdropWhile Char.isWhitespace (l.dropWhile Char.isWhitespace) with
    | nil => simp
    | cons c t' =>
      rw [ht] at hs
      have hA' : l.dropWhile Char.isWhitespace = c :: (t' ++ s) := by
        rw [← hs]; simp
      have hnc : ¬Char.isWhitespace c = true := by
        intro hpc
        rw [hA', List.dropWhile_cons, if_pos hpc] at hA
        have hlen := congrArg List.length hA
        have hle := (List.dropWhile_sublist (l := t' ++ s) (p := Char.isWhitespace)).length_le
        simp only [List.length_cons] at hlen
        omega
      rw [List.dropWhile_cons, if_neg hnc]
  calc trimChars (trimChars l)
      = List.rdropWhile Char.isWhitespace ((List.rdropWhile Char.isWhitespace
          (l.dropWhile Char.isWhitespace)).dropWhile Char.isWhitespace) := rfl
    _ = List.rdropWhile Char.isWhitespace (List.rdropWhile Char.isWhitespace
          (l.dropWhile Char.isWhitespace)) := by rw [hdrop]
    _ = List.rdropWhile Char.isWhitespace (l.dropWhile Char.isWhitespace) :=
        List.rdropWhile_idempotent _ _
    _ = trimChars l := rfl

/-- Extracting a province from an already-extracted province changes
nothing. -/
theorem extractProvince_idem (x : String) :
    extractProvince (extractProvince x) = extractProvince x := by
  show String.mk (trimChars (beforeSlash (trimChars (beforeSlash x.data)))) =
    String.mk (trimChars (beforeSlash x.data))
  rw [beforeSlash_of_no_slash _
    (fun h => beforeSlash_no_slash x.data (mem_of_mem_trimChars h)), trimChars_idem]

/-- Any property preserved by the three outcomes of `addPoint` holds for
every entry of the updated group list. -/
theorem addPoint_preserve (P : String × PriceGroup → Prop)
    (k o d v : String) (p : ℝ) (hnew : P (k, ⟨o, d, v, [p]⟩))
    (hupd : ∀ g', P (k, g') → P (k, { g' with prices := g'.prices ++ [p] })) :
    ∀ gs : List (String × PriceGroup), (∀ kg ∈ gs, P kg) →
      ∀ kg ∈ addPoint gs k o d v p, P kg := by
  intro gs
  induction gs with
  | nil =>
    intro _ kg hkg
    rw [addPoint] at hkg
    rw [List.mem_singleton.mp hkg]
    exact hnew
  | cons kg0 rest ih =>
    intro hgs kg hkg
    obtain ⟨k0, g0⟩ := kg0
    rw [addPoint] at hkg
    by_cases hk : k0 = k
    · rw [if_pos hk] at hkg
      rcases List.mem_cons.mp hkg with h | h
      · rw [h, hk]
        exact hupd g0 (hk ▸ hgs (k0, g0) (List.mem_cons_self _ _))
      · exact hgs _ (List.mem_cons_of_mem _ h)
    · rw [if_neg hk] at hkg
      rcases List.mem_cons.mp hkg with h | h
      · rw [h]
        exact hgs _ (List.mem_cons_self _ _)
      · exact ih (fun kg' hkg' => hgs kg' (List.mem_cons_of_mem _ hkg')) kg h

/-- Invariant of the exact-route grouping: the stored key is the route key
of the representative names, and the price bucket is never empty. -/
theorem routeGroups_prop (data : List PriceDataPoint) :
    ∀ kg ∈ routeGroups data,
      kg.1 = routeKey kg.2.origin kg.2.destination kg.2.vehicleType ∧ kg.2.prices ≠ [] := by
  suffices h : ∀ (ds : List PriceDataPoint) (gs : List (String × PriceGroup)),
      (∀ kg ∈ gs, kg.1 = routeKey kg.2.origin kg.2.destination kg.2.vehicleType ∧
        kg.2.prices ≠ []) →
      ∀ kg ∈ ds.foldl (fun gs d =>
          addPoint gs (routeKey d.origin d.destination d.vehicleType)
            d.origin d.destination d.vehicleType d.unitPrice) gs,
        kg.1 = routeKey kg.2.origin kg.2.destination kg.2.vehicleType ∧ kg.2.prices ≠ [] by
    exact h data [] (by simp)
  intro ds
  induction ds with
  | nil => intro gs hgs; exact hgs
  | cons dp rest ih =>
    intro gs hgs
    rw [List.foldl_cons]
    refine ih _ (addPoint_preserve _ _ _ _ _ _ ⟨rfl, by simp⟩ ?_ gs hgs)
    intro g' hg'
    exact ⟨hg'.1, by simp⟩

/-- Invariant of the province grouping: the stored key is the route key of
the stored names, the names are fixed points of `extractProvince`, and the
price pool is never empty. -/
theorem provinceGroups_prop (data : List PriceDataPoint) :
    ∀ kg ∈ provinceGroups data,
      kg.1 = routeKey kg.2.origin kg.2.destination kg.2.vehicleType ∧
        extractProvince kg.2.origin = kg.2.origin ∧
        extractProvince kg.2.destination = kg.2.destination ∧ kg.2.prices ≠ [] := by
  suffices h : ∀ (ds : List PriceDataPoint) (gs : List (String × PriceGroup)),
      (∀ kg ∈ gs, kg.1 = routeKey kg.2.origin kg.2.destination kg.2.vehicleType ∧
        extractProvince kg.2.origin = kg.2.origin ∧
        extractProvince kg.2.destination = kg.2.destination ∧ kg.2.prices ≠ []) →
      ∀ kg ∈ ds.foldl (fun gs d =>
          addPoint gs (provinceRouteKey d.origin d.destination d.vehicleType)
            (extractProvince d.origin) (extractProvince d.destination)
            d.vehicleType d.unitPrice) gs,
        kg.1 = routeKey kg.2.origin kg.2.destination kg.2.vehicleType ∧
          extractProvince kg.2.origin = kg.2.origin ∧
          extractProvince kg.2.destination = kg.2.destination ∧ kg.2.prices ≠ [] by
    exact h data [] (by simp)
  intro ds
  induction ds with
  | nil => intro gs hgs; exact hgs
  | cons dp rest ih =>
    intro gs hgs
    rw [List.foldl_cons]
    refine ih _ (addPoint_preserve _ _ _ _ _ _
      ⟨rfl, extractProvince_idem _, extractProvince_idem _, by simp⟩ ?_ gs hgs)
    intro g' hg'
    exact ⟨hg'.1, hg'.2.1, hg'.2.2.1, by simp⟩

/-- Running `processGroup` on a group with enough data just appends the exact
result. -/
theorem processGroup_big (pg : List (String × PriceGroup)) (st : AnalyzeState)
    (g : PriceGroup) (h : MIN_SAMPLE_SIZE ≤ g.prices.length) :
    processGroup pg st g = { st with results := st.results ++ [exactResult g] } := by
  simp [processGroup, h]

/-- Running `processGroup` on a small group whose province key was already
processed leaves the state unchanged. -/
theorem processGroup_seen (pg : List (String × PriceGroup)) (st : AnalyzeState)
    (g : PriceGroup) (h1 : ¬MIN_SAMPLE_SIZE ≤ g.prices.length)
    (h2 : provinceRouteKey g.origin g.destination g.vehicleType ∈
      st.processedProvinceKeys) :
    processGroup pg st g = st := by
  simp [processGroup, h1, h2]

/-- Running `processGroup` on a small group with a fresh province key appends one
fallback result and records the key. -/
theorem processGroup_fresh (pg : List (String × PriceGroup)) (st : AnalyzeState)
    (g : PriceGroup) (h1 : ¬MIN_SAMPLE_SIZE ≤ g.prices.length)
    (h2 : provinceRouteKey g.origin g.destination g.vehicleType ∉
      st.processedProvinceKeys) :
    processGroup pg st g =
      ⟨st.results ++ [smallGroupResult pg g],
        st.processedProvinceKeys ++
          [provinceRouteKey g.origin g.destination g.vehicleType]⟩ := by
  simp [processGroup, h1, h2]

/-- An `exactResult` is never a fallback. -/
theorem exactResult_isFallback (g : PriceGroup) : (exactResult g).isFallback = false := rfl

/-- Every emission for a small group is a fallback. -/
theorem smallGroupResult_isFallback (pg : List (String × PriceGroup)) (g : PriceGroup) :
    (smallGroupResult pg g).isFallback = true := by
  unfold smallGroupResult
  cases pg.lookup (provinceRouteKey g.origin g.destination g.vehicleType) with
  | none => rfl
  | some pool =>
    by_cases hlen : pool.prices.length < MIN_SAMPLE_SIZE
    · simp only [if_pos hlen]; rfl
    · simp only [if_neg hlen]; rfl

/-- The emission for a small group carries that group's province key: the
province-pool result is named by the pool's province names (fixed points
of `extractProvince`), the low-data result by the group's own names. -/
theorem smallGroupResult_provKey (data : List PriceDataPoint) (g : PriceGroup) :
    provinceRouteKey (smallGroupResult (provinceGroups data) g).origin
        (smallGroupResult (provinceGroups data) g).destination
        (smallGroupResult (provinceGroups data) g).vehicleType =
      provinceRouteKey g.origin g.destination g.vehicleType := by
  unfold smallGroupResult
  cases hl : (provinceGroups data).lookup
      (provinceRouteKey g.origin g.destination g.vehicleType) with
  | none => rfl
  | some pool =>
    have hprop := provinceGroups_prop data _ (lookup_mem _ _ _ hl)
    by_cases hlen : pool.prices.length < MIN_SAMPLE_SIZE
    · simp only [if_pos hlen]; rfl
    · simp only [if_neg hlen]
      show provinceRouteKey pool.origin pool.destination pool.vehicleType = _
      unfold provinceRouteKey
      rw [hprop.2.1, hprop.2.2.1]
      exact hprop.1.symm

/-- Fallback-result-with-province-key test used in the counting
invariants. -/
def isFallbackWithKey (key : String) (r : RouteMedianResult) : Bool :=
  r.isFallback && (provinceRouteKey r.origin r.destination r.vehicleType == key)

/-- The invariants of the step-3 loop: per-province-key fallback counts
match the processed-key set, the total fallback count is the number of
processed keys, the processed keys stay distinct and are exactly the
province keys of the traversed small groups, and each traversed group with
enough data adds exactly one non-fallback result. -/
theorem foldl_process_invariants (data : List PriceDataPoint) :
    ∀ (gs : List (String × PriceGroup)) (st : AnalyzeState),
      (∀ key, st.results.countP (isFallbackWithKey key) =
        if key ∈ st.processedProvinceKeys then 1 else 0) →
      st.results.countP (fun r => r.isFallback) = st.processedProvinceKeys.length →
      st.processedProvinceKeys.Nodup →
      (∀ key, (gs.foldl (fun st kg => processGroup (provinceGroups data) st kg.2)
          st).results.countP (isFallbackWithKey key) =
        if key ∈ (gs.foldl (fun st kg => processGroup (provinceGroups data) st kg.2)
            st).processedProvinceKeys then 1 else 0) ∧
      (gs.foldl (fun st kg => processGroup (provinceGroups data) st kg.2)
          st).results.countP (fun r => r.isFallback) =
        (gs.foldl (fun st kg => processGroup (provinceGroups data) st kg.2)
          st).processedProvinceKeys.length ∧
      (gs.foldl (fun st kg => processGroup (provinceGroups data) st kg.2)
          st).processedProvinceKeys.Nodup ∧
      (∀ key, key ∈ (gs.foldl (fun st kg => processGroup (provinceGroups data) st kg.2)
          st).processedProvinceKeys ↔ key ∈ st.processedProvinceKeys ∨
        ∃ kg ∈ gs, kg.2.prices.length < MIN_SAMPLE_SIZE ∧
          provinceRouteKey kg.2.origin kg.2.destination kg.2.vehicleType = key) ∧
      (gs.foldl (fun st kg => processGroup (provinceGroups data) st kg.2)
          st).results.countP (fun r => !r.isFallback) =
        st.results.countP (fun r => !r.isFallback) +
          gs.countP (fun kg => decide (MIN_SAMPLE_SIZE ≤ kg.2.prices.length)) := by
  intro gs
  induction gs with
  | nil =>
    intro st h1 h2 h3
    exact ⟨h1, h2, h3, fun key => by simp, by simp⟩
  | cons kg gs ih =>
    intro st h1 h2 h3
    rw [List.foldl_cons]
    by_cases hbig : MIN_SAMPLE_SIZE ≤ kg.2.prices.length
    · rw [processGroup_big _ _ _ hbig]
      have h1' : ∀ key, (st.results ++ [exactResult kg.2]).countP (isFallbackWithKey key) =
          if key ∈ st.processedProvinceKeys then 1 else 0 := by
        intro key
        rw [List.countP_append]
        simp [isFallbackWithKey, exactResult_isFallback, h1 key]
      have h2' : (st.results ++ [exactResult kg.2]).countP (fun r => r.isFallback) =
          st.processedProvinceKeys.length := by
        rw [List.countP_append]
        simp [exactResult_isFallback, h2]
      obtain ⟨f1, f2, f3, f4, f5⟩ :=
        ih { st with results := st.results ++ [exactResult kg.2] } h1' h2' h3
      refine ⟨f1, f2, f3, ?_, ?_⟩
      · intro key
        rw [f4 key]
        constructor
        · rintro (h | ⟨kg', hkg', hsmall, hpk⟩)
          · exact Or.inl h
          · exact Or.inr ⟨kg', List.mem_cons_of_mem _ hkg', hsmall, hpk⟩
        · rintro (h | ⟨kg', hkg', hsmall, hpk⟩)
          · exact Or.inl h
          · rcases List.mem_cons.mp hkg' with hh | hh
            · exact absurd hsmall (by rw [hh]; omega)
            · exact Or.inr ⟨kg', hh, hsmall, hpk⟩
      · rw [f5, List.countP_append, List.countP_cons]
        simp [exactResult_isFallback, hbig]
        omega
    · by_cases hseen : provinceRouteKey kg.2.origin kg.2.destination kg.2.vehicleType ∈
          st.processedProvinceKeys
      · rw [processGroup_seen _ _ _ hbig hseen]
        obtain ⟨f1, f2, f3, f4, f5⟩ := ih st h1 h2 h3
        refine ⟨f1, f2, f3, ?_, ?_⟩
        · intro key
          rw [f4 key]
          constructor
          · rintro (h | ⟨kg', hkg', hsmall, hpk⟩)
            · exact Or.inl h
            · exact Or.inr ⟨kg', List.mem_cons_of_mem _ hkg', hsmall, hpk⟩
          · rintro (h | ⟨kg', hkg', hsmall, hpk⟩)
            · exact Or.inl h
            · rcases List.mem_cons.mp hkg' with hh | hh
              · exact Or.inl (by rw [hh] at hpk; rw [← hpk]; exact hseen)
              · exact Or.inr ⟨kg', hh, hsmall, hpk⟩
        · rw [f5, List.countP_cons]
          simp [hbig]
      · rw [processGroup_fresh _ _ _ hbig hseen]
        have hrpk := smallGroupResult_provKey data kg.2
        have h1' : ∀ key, (st.results ++
            [smallGroupResult (provinceGroups data) kg.2]).countP
              (isFallbackWithKey key) =
            if key ∈ st.processedProvinceKeys ++
              [provinceRouteKey kg.2.origin kg.2.destination kg.2.vehicleType]
            then 1 else 0 := by
          intro key
          rw [List.countP_append, h1 key]
          by_cases hkey : provinceRouteKey kg.2.origin kg.2.destination kg.2.vehicleType =
              key
          · rw [← hkey]
            have hnotin : (provinceRouteKey kg.2.origin kg.2.destination kg.2.vehicleType ∈
                st.processedProvinceKeys) = False := by simp [hseen]
            simp [isFallbackWithKey, smallGroupResult_isFallback, hrpk, hnotin]
          · have hpred : isFallbackWithKey key
                (smallGroupResult (provinceGroups data) kg.2) = false := by
              simp [isFallbackWithKey, hrpk, hkey]
            simp only [List.countP_cons, List.countP_nil, hpred, Bool.false_eq_true,
              if_false, Nat.zero_add, Nat.add_zero]
            have hiff : key ∈ st.processedProvinceKeys ++
                [provinceRouteKey kg.2.origin kg.2.destination kg.2.vehicleType] ↔
                key ∈ st.processedProvinceKeys := by
              rw [List.mem_append, List.mem_singleton]
              exact or_iff_left (fun h => hkey h.symm)
            exact (if_congr hiff rfl rfl).symm
        have h2' : (st.results ++
            [smallGroupResult (provinceGroups data) kg.2]).countP (fun r => r.isFallback) =
            (st.processedProvinceKeys ++
              [provinceRouteKey kg.2.origin kg.2.destination kg.2.vehicleType]).length := by
          rw [List.countP_append, List.length_append]
          simp [smallGroupResult_isFallback, h2]
        have h3' : (st.processedProvinceKeys ++
            [provinceRouteKey kg.2.origin kg.2.destination kg.2.vehicleType]).Nodup := by
          rw [List.nodup_append]
          exact ⟨h3, List.nodup_singleton _, by simp [hseen]⟩
        obtain ⟨f1, f2, f3, f4, f5⟩ :=
          ih ⟨st.results ++ [smallGroupResult (provinceGroups data) kg.2],
            st.processedProvinceKeys ++
              [provinceRouteKey kg.2.origin kg.2.destination kg.2.vehicleType]⟩ h1' h2' h3'
        refine ⟨f1, f2, f3, ?_, ?_⟩
        · intro key
          rw [f4 key]
          rw [List.mem_append, List.mem_singleton]
          constructor
          · rintro ((h | h) | ⟨kg', hkg', hsmall, hpk⟩)
            · exact Or.inl h
            · exact Or.inr ⟨kg, List.mem_cons_self _ _, by omega, h.symm⟩
            · exact Or.inr ⟨kg', List.mem_cons_of_mem _ hkg', hsmall, hpk⟩
          · rintro (h | ⟨kg', hkg', hsmall, hpk⟩)
            · exact Or.inl (Or.inl h)
            · rcases List.mem_cons.mp hkg' with hh | hh
              · exact Or.inl (Or.inr (by rw [hh] at hpk; exact hpk.symm))
              · exact Or.inr ⟨kg', hh, hsmall, hpk⟩
        · rw [f5, List.countP_append, List.countP_cons]
          simp [smallGroupResult_isFallback, hbig]

/-- Accumulated results are never removed by the step-3 loop. -/
theorem results_mono (pg : List (String × PriceGroup)) :
    ∀ (gs : List (String × PriceGroup)) (st : AnalyzeState) (r : RouteMedianResult),
      r ∈ st.results →
      r ∈ (gs.foldl (fun st kg => processGroup pg st kg.2) st).results := by
  intro gs
  induction gs with
  | nil => intro st r h; exact h
  | cons kg gs ih =>
    intro st r h
    rw [List.foldl_cons]
    apply ih
    by_cases hbig : MIN_SAMPLE_SIZE ≤ kg.2.prices.length
    · rw [processGroup_big _ _ _ hbig]
      exact List.mem_append_left _ h
    · by_cases hseen : provinceRouteKey kg.2.origin kg.2.destination kg.2.vehicleType ∈
          st.processedProvinceKeys
      · rw [processGroup_seen _ _ _ hbig hseen]
        exact h
      · rw [processGroup_fresh _ _ _ hbig hseen]
        exact List.mem_append_left _ h

/-- Every exact group with enough data emits its exact result. -/
theorem exactResult_mem_analyzeCore (data : List PriceDataPoint) :
    ∀ kg ∈ routeGroups data, MIN_SAMPLE_SIZE ≤ kg.2.prices.length →
      exactResult kg.2 ∈ analyzeCore data := by
  suffices h : ∀ (gs : List (String × PriceGroup)) (st : AnalyzeState),
      ∀ kg ∈ gs, MIN_SAMPLE_SIZE ≤ kg.2.prices.length →
        exactResult kg.2 ∈
          (gs.foldl (fun st kg => processGroup (provinceGroups data) st kg.2) st).results by
    intro kg hkg hbig
    exact h (routeGroups data) ⟨[], []⟩ kg hkg hbig
  intro gs
  induction gs with
  | nil => intro st kg hkg; exact absurd hkg (List.not_mem_nil kg)
  | cons kg0 gs ih =>
    intro st kg hkg hbig
    rw [List.foldl_cons]
    rcases List.mem_cons.mp hkg with h | h
    · rw [h, processGroup_big _ _ _ (h ▸ hbig)]
      exact results_mono _ gs _ _ (List.mem_append_right _ (List.mem_singleton.mpr rfl))
    · exact ih _ kg h hbig

/-- C2 (amended): `analyzeMarketData` emits exactly one non-fallback result
per exact group with at least `MIN_SAMPLE_SIZE` samples, under that group's
exact names; small groups are covered by exactly one fallback result per
distinct province key, which carries the province-aggregated names when
the province pool has enough samples and the first small group's exact
names otherwise; the number of fallback results equals the number of
distinct province keys among small groups. -/
theorem analyzer_one_result_per_group (data : List PriceDataPoint) :
    ((analyzeMarketData data).countP (fun r => !r.isFallback) =
        (routeGroups data).countP
          (fun kg => decide (MIN_SAMPLE_SIZE ≤ kg.2.prices.length))) ∧
      (∀ kg ∈ routeGroups data, MIN_SAMPLE_SIZE ≤ kg.2.prices.length →
        ∃ r ∈ analyzeMarketData data, r.isFallback = false ∧ r.origin = kg.2.origin ∧
          r.destination = kg.2.destination ∧ r.vehicleType = kg.2.vehicleType ∧
          r.sampleSize = kg.2.prices.length) ∧
      (∀ kg ∈ routeGroups data, kg.2.prices.length < MIN_SAMPLE_SIZE →
        (analyzeMarketData data).countP (isFallbackWithKey
          (provinceRouteKey kg.2.origin kg.2.destination kg.2.vehicleType)) = 1) ∧
      (analyzeMarketData data).countP (fun r => r.isFallback) =
        (((routeGroups data).filter
            (fun kg => decide (kg.2.prices.length < MIN_SAMPLE_SIZE))).map
          (fun kg => provinceRouteKey kg.2.origin kg.2.destination
            kg.2.vehicleType)).dedup.length := by
  have hperm := List.mergeSort_perm (analyzeCore data) byConfidenceDesc
  have hcount : ∀ p : RouteMedianResult → Bool,
      (analyzeMarketData data).countP p = (analyzeCore data).countP p :=
    fun p => hperm.countP_eq p
  obtain ⟨f1, f2, f3, f4, f5⟩ :=
    foldl_process_invariants data (routeGroups data) ⟨[], []⟩ (by simp) (by simp)
      List.nodup_nil
  refine ⟨?_, ?_, ?_, ?_⟩
  · rw [hcount]
    have := f5
    simpa using this
  · intro kg hkg hbig
    refine ⟨exactResult kg.2, ?_, rfl, rfl, rfl, rfl, rfl⟩
    rw [analyzeMarketData_mem]
    exact exactResult_mem_analyzeCore data kg hkg hbig
  · intro kg hkg hsmall
    rw [hcount]
    have hkeyin : provinceRouteKey kg.2.origin kg.2.destination kg.2.vehicleType ∈
        ((routeGroups data).foldl
          (fun st kg => processGroup (provinceGroups data) st kg.2)
          ⟨[], []⟩).processedProvinceKeys := by
      rw [f4]
      exact Or.inr ⟨kg, hkg, hsmall, rfl⟩
    have := f1 (provinceRouteKey kg.2.origin kg.2.destination kg.2.vehicleType)
    rw [if_pos hkeyin] at this
    exact this
  · rw [hcount]
    have hfinal := f2
    have hmemiff : ∀ key,
        key ∈ ((routeGroups data).foldl
          (fun st kg => processGroup (provinceGroups data) st kg.2)
          ⟨[], []⟩).processedProvinceKeys ↔
        key ∈ ((routeGroups data).filter
            (fun kg => decide (kg.2.prices.length < MIN_SAMPLE_SIZE))).map
          (fun kg => provinceRouteKey kg.2.origin kg.2.destination kg.2.vehicleType) := by
      intro key
      rw [f4 key]
      simp only [List.not_mem_nil, false_or, List.mem_map, List.mem_filter,
        decide_eq_true_eq]
      constructor
      · rintro ⟨kg, hkg, hsmall, hpk⟩
        exact ⟨kg, ⟨hkg, hsmall⟩, hpk⟩
      · rintro ⟨kg, ⟨hkg, hsmall⟩, hpk⟩
        exact ⟨kg, hkg, hsmall, hpk⟩
    have htof : (((routeGroups data).foldl
        (fun st kg => processGroup (provinceGroups data) st kg.2)
        ⟨[], []⟩).processedProvinceKeys).toFinset =
        (((routeGroups data).filter
            (fun kg => decide (kg.2.prices.length < MIN_SAMPLE_SIZE))).map
          (fun kg => provinceRouteKey kg.2.origin kg.2.destination
            kg.2.vehicleType)).toFinset := by
      apply Finset.ext
      intro key
      rw [List.mem_toFinset, List.mem_toFinset]
      exact hmemiff key
    have hdef : analyzeCore data = ((routeGroups data).foldl
        (fun st kg => processGroup (provinceGroups data) st kg.2) ⟨[], []⟩).results := rfl
    rw [hdef, hfinal, ← List.toFinset_card_of_nodup f3, htof, List.card_toFinset]

/-- Concrete batch: two small exact routes sharing the province pair
(Seoul, Busan), with a pooled province group of 4 < 5 prices. -/
def dataFour : List PriceDataPoint :=
  [⟨"Seoul/A", "Busan/B", "11t", 100⟩, ⟨"Seoul/A", "Busan/B", "11t", 100⟩,
   ⟨"Seoul/C", "Busan/D", "11t", 200⟩, ⟨"Seoul/C", "Busan/D", "11t", 200⟩]

/-- Exact grouping of `dataFour`: two groups of two prices each. -/
theorem routeGroups_dataFour :
    routeGroups dataFour =
      [(routeKey "Seoul/A" "Busan/B" "11t",
        ⟨"Seoul/A", "Busan/B", "11t", [100, 100]⟩),
       (routeKey "Seoul/C" "Busan/D" "11t",
        ⟨"Seoul/C", "Busan/D", "11t", [200, 200]⟩)] := by
  simp [routeGroups, dataFour, addPoint, routeKey]

/-- Province grouping of `dataFour`: one pooled group of four prices. -/
theorem provinceGroups_dataFour :
    provinceGroups dataFour =
      [("Seoul||Busan||11t", ⟨"Seoul", "Busan", "11t", [100, 100, 200, 200]⟩)] := by
  have e1 : extractProvince "Seoul/A" = "Seoul" := by decide
  have e2 : extractProvince "Busan/B" = "Busan" := by decide
  have e3 : extractProvince "Seoul/C" = "Seoul" := by decide
  have e4 : extractProvince "Busan/D" = "Busan" := by decide
  simp [provinceGroups, dataFour, addPoint, provinceRouteKey, routeKey, e1, e2, e3, e4]

/-- The analyzer on `dataFour` emits a single fallback result — computed
from the pooled four province prices but labelled with the first small
group's exact names. -/
theorem analyzeCore_dataFour :
    analyzeCore dataFour =
      [lowDataResult ⟨"Seoul/A", "Busan/B", "11t", [100, 100]⟩
        [100, 100, 200, 200]] := by
  have e1 : extractProvince "Seoul/A" = "Seoul" := by decide
  have e2 : extractProvince "Busan/B" = "Busan" := by decide
  have e3 : extractProvince "Seoul/C" = "Seoul" := by decide
  have e4 : extractProvince "Busan/D" = "Busan" := by decide
  have hdef : analyzeCore dataFour = ((routeGroups dataFour).foldl
      (fun st kg => processGroup (provinceGroups dataFour) st kg.2) ⟨[], []⟩).results := rfl
  rw [hdef, routeGroups_dataFour]
  simp [processGroup, MIN_SAMPLE_SIZE, smallGroupResult, provinceGroups_dataFour,
    provinceRouteKey, routeKey, e1, e2, e3, e4, List.lookup]

/-- The sorted analyzer output on `dataFour` coincides with the unsorted
one (a single result). -/
theorem analyzeMarketData_dataFour : analyzeMarketData dataFour = analyzeCore dataFour := by
  have hperm := List.mergeSort_perm (analyzeCore dataFour) byConfidenceDesc
  rw [analyzeCore_dataFour] at hperm
  rw [analyzeMarketData, analyzeCore_dataFour]
  exact List.perm_singleton.mp hperm

/-- C2 (counterexample): in `dataFour` the exact key
`("Seoul/C", "Busan/D", "11t")` is observed with fewer than 5 samples, yet
no emitted result at all carries its province-aggregated key
`("Seoul", "Busan", "11t")` — the single fallback result is labelled with
the sibling group's exact names — so "covered by exactly one result under
its province-aggregated key" fails (0 ≠ 1). -/
theorem small_group_not_under_province_key :
    (⟨"Seoul/C", "Busan/D", "11t", 200⟩ : PriceDataPoint) ∈ dataFour ∧
      (routeGroups dataFour).countP
        (fun kg => kg.1 == routeKey "Seoul/C" "Busan/D" "11t" &&
          decide (kg.2.prices.length < MIN_SAMPLE_SIZE)) = 1 ∧
      (analyzeMarketData dataFour).countP
        (fun r => r.origin == "Seoul" && (r.destination == "Busan" &&
          r.vehicleType == "11t")) = 0 ∧
      (0 : ℕ) ≠ 1 := by
  refine ⟨by simp [dataFour], ?_, ?_, by norm_num⟩
  · rw [routeGroups_dataFour]
    simp [routeKey, MIN_SAMPLE_SIZE]
  · rw [analyzeMarketData_dataFour, analyzeCore_dataFour]
    simp [lowDataResult]

/-- C2 (witness): the per-province-key fallback count of 1, applied to the
observed small exact key `("Seoul/C", "Busan/D", "11t")` of `dataFour`. -/
theorem analyzer_one_result_per_group_witness :
    ((routeKey "Seoul/C" "Busan/D" "11t",
        (⟨"Seoul/C", "Busan/D", "11t", [200, 200]⟩ : PriceGroup)) ∈
      routeGroups dataFour) ∧
      (analyzeMarketData dataFour).countP (isFallbackWithKey
        (provinceRouteKey "Seoul/C" "Busan/D" "11t")) = 1 := by
  have hm : (routeKey "Seoul/C" "Busan/D" "11t",
      (⟨"Seoul/C", "Busan/D", "11t", [200, 200]⟩ : PriceGroup)) ∈
      routeGroups dataFour := by
    rw [routeGroups_dataFour]
    exact List.mem_cons_of_mem _ (List.mem_singleton.mpr rfl)
  have hsize : (routeKey "Seoul/C" "Busan/D" "11t",
      (⟨"Seoul/C", "Busan/D", "11t", [200, 200]⟩ : PriceGroup)).2.prices.length <
      MIN_SAMPLE_SIZE := by norm_num [MIN_SAMPLE_SIZE]
  exact ⟨hm, (analyzer_one_result_per_group dataFour).2.2.1
    (routeKey "Seoul/C" "Busan/D" "11t",
      (⟨"Seoul/C", "Busan/D", "11t", [200, 200]⟩ : PriceGroup)) hm hsize⟩

-- ══════════════════════════════════════════════════════════════════
-- C3: fallback branch behavior
-- ══════════════════════════════════════════════════════════════════

/-- C3 (amended): fallback results are emitted exactly from exact groups
with fewer than `MIN_SAMPLE_SIZE` samples; for such a group, a province
pool with at least `MIN_SAMPLE_SIZE` prices is IQR-filtered, and a smaller
pool's prices (the pooled province values, not just the group's own) are
used directly with no filtering — `iqr = lowerBound = upperBound = 0`,
`isFallback = true`, `fallbackLevel = "province"`. -/
theorem fallback_exactly_for_small_groups (data : List PriceDataPoint) :
    (∀ r ∈ analyzeMarketData data, r.isFallback = true →
      ∃ kg ∈ routeGroups data, kg.2.prices.length < MIN_SAMPLE_SIZE ∧
        r = smallGroupResult (provinceGroups data) kg.2) ∧
      (∀ r ∈ analyzeMarketData data, r.isFallback = false →
        ∃ kg ∈ routeGroups data, MIN_SAMPLE_SIZE ≤ kg.2.prices.length ∧
          r = exactResult kg.2) ∧
      (∀ (g pool : PriceGroup), (provinceGroups data).lookup
            (provinceRouteKey g.origin g.destination g.vehicleType) = some pool →
          MIN_SAMPLE_SIZE ≤ pool.prices.length →
          smallGroupResult (provinceGroups data) g = provincePoolResult pool ∧
            (provincePoolResult pool).filteredSize =
              (applyIQRFilter pool.prices 1.5).filtered.length ∧
            (provincePoolResult pool).sampleSize = pool.prices.length ∧
            (provincePoolResult pool).isFallback = true ∧
            (provincePoolResult pool).fallbackLevel = some "province") ∧
      ∀ (g pool : PriceGroup), (provinceGroups data).lookup
          (provinceRouteKey g.origin g.destination g.vehicleType) = some pool →
        pool.prices.length < MIN_SAMPLE_SIZE →
        smallGroupResult (provinceGroups data) g = lowDataResult g pool.prices ∧
          (lowDataResult g pool.prices).iqr = 0 ∧
          (lowDataResult g pool.prices).lowerBound = 0 ∧
          (lowDataResult g pool.prices).upperBound = 0 ∧
          (lowDataResult g pool.prices).isFallback = true ∧
          (lowDataResult g pool.prices).fallbackLevel = some "province" ∧
          (lowDataResult g pool.prices).sampleSize = pool.prices.length ∧
          (lowDataResult g pool.prices).filteredSize = pool.prices.length := by
  refine ⟨?_, ?_, ?_, ?_⟩
  · intro r hr hfb
    rcases analyzeCore_mem data r ((analyzeMarketData_mem data r).mp hr) with
      ⟨kg, hm, ⟨_, he⟩ | ⟨hsmall, he⟩⟩
    · rw [he, exactResult_isFallback] at hfb
      exact absurd hfb (by simp)
    · exact ⟨kg, hm, hsmall, he⟩
  · intro r hr hfb
    rcases analyzeCore_mem data r ((analyzeMarketData_mem data r).mp hr) with
      ⟨kg, hm, ⟨hbig, he⟩ | ⟨_, he⟩⟩
    · exact ⟨kg, hm, hbig, he⟩
    · rw [he, smallGroupResult_isFallback] at hfb
      exact absurd hfb (by simp)
  · intro g pool hl hlen
    unfold smallGroupResult
    rw [hl]
    show (if pool.prices.length < MIN_SAMPLE_SIZE then lowDataResult g pool.prices
      else provincePoolResult pool) = provincePoolResult pool ∧ _
    rw [if_neg (Nat.not_lt.mpr hlen)]
    exact ⟨rfl, rfl, rfl, rfl, rfl⟩
  · intro g pool hl hlen
    unfold smallGroupResult
    rw [hl]
    show (if pool.prices.length < MIN_SAMPLE_SIZE then lowDataResult g pool.prices
      else provincePoolResult pool) = lowDataResult g pool.prices ∧ _
    rw [if_pos hlen]
    exact ⟨rfl, rfl, rfl, rfl, rfl, rfl, rfl, rfl⟩

/-- C3 (counterexample): in `dataFour` the emitted fallback result for the
small group `("Seoul/A", "Busan/B", "11t")` has `sampleSize = filteredSize
= 4` — the pooled province values — not the 2 raw values of the group
itself, refuting "the raw small-sample values are used directly". -/
theorem fallback_pools_values_counterexample :
    ((analyzeMarketData dataFour).map fun r =>
        (r.origin, r.destination, r.sampleSize, r.filteredSize)) =
      [("Seoul/A", "Busan/B", 4, 4)] ∧ (4 : ℕ) ≠ 2 := by
  rw [analyzeMarketData_dataFour, analyzeCore_dataFour]
  exact ⟨by simp [lowDataResult], by norm_num⟩

/-- C3 (witness): the fallback characterization applied to the single
emitted result of `dataFour`. -/
theorem fallback_exactly_for_small_groups_witness :
    lowDataResult ⟨"Seoul/A", "Busan/B", "11t", [100, 100]⟩ [100, 100, 200, 200] ∈
        analyzeMarketData dataFour ∧
      ∃ kg ∈ routeGroups dataFour, kg.2.prices.length < MIN_SAMPLE_SIZE ∧
        lowDataResult ⟨"Seoul/A", "Busan/B", "11t", [100, 100]⟩ [100, 100, 200, 200] =
          smallGroupResult (provinceGroups dataFour) kg.2 := by
  have hmem : lowDataResult ⟨"Seoul/A", "Busan/B", "11t", [100, 100]⟩
      [100, 100, 200, 200] ∈ analyzeMarketData dataFour := by
    rw [analyzeMarketData_dataFour, analyzeCore_dataFour]
    exact List.mem_singleton.mpr rfl
  exact ⟨hmem, (fallback_exactly_for_small_groups dataFour).1 _ hmem rfl⟩

-- ══════════════════════════════════════════════════════════════════
-- C9: the IQR filter keeps at least one value
-- ══════════════════════════════════════════════════════════════════

/-- The numeric sort is a permutation of its input. -/
theorem sortedNumeric_perm (l : List ℝ) : (sortedNumeric l).Perm l :=
  List.mergeSort_perm l realLE

/-- The numeric sort is sorted by `≤`. -/
theorem sortedNumeric_sorted (l : List ℝ) : List.Sorted (· ≤ ·) (sortedNumeric l) := by
  have htrans : ∀ a b c : ℝ, realLE a b = true → realLE b c = true → realLE a c = true := by
    intro a b c hab hbc
    simp only [realLE, decide_eq_true_eq] at hab hbc ⊢
    exact le_trans hab hbc
  have htotal : ∀ a b : ℝ, (realLE a b || realLE b a) = true := by
    intro a b
    rcases le_total a b with h | h
    · simp [realLE, h]
    · simp [realLE, h]
  refine (List.sorted_mergeSort htrans htotal l).imp ?_
  intro a b h
  simpa [realLE] using h

/-- Indexing a `≤`-sorted list is monotone. -/
theorem sorted_getD_mono (s : List ℝ) (hs : List.Sorted (· ≤ ·) s) (i j : ℕ)
    (hij : i ≤ j) (hj : j < s.length) : s.getD i 0 ≤ s.getD j 0 := by
  have hi : i < s.length := lt_of_le_of_lt hij hj
  rw [List.getD_eq_get s 0 hi, List.getD_eq_get s 0 hj]
  rcases eq_or_lt_of_le hij with h | h
  · subst h
    exact le_refl _
  · exact hs.rel_get_of_lt h

/-- Unified interpolation formula for the quantile of a nonempty list: the
one-element and integer-position branches coincide with the general
two-point interpolation. -/
theorem quantile_eq (s : List ℝ) (q : ℝ) (hn : s.length ≠ 0) :
    quantile s q =
      s.getD (⌊q * ((s.length : ℝ) - 1)⌋).toNat 0 *
          (1 - Int.fract (q * ((s.length : ℝ) - 1))) +
        s.getD (⌈q * ((s.length : ℝ) - 1)⌉).toNat 0 *
          Int.fract (q * ((s.length : ℝ) - 1)) := by
  simp only [quantile]
  rw [if_neg hn]
  by_cases h1 : s.length = 1
  · rw [if_pos h1]
    have hpos : q * ((s.length : ℝ) - 1) = 0 := by
      rw [h1]
      push_cast
      ring
    rw [hpos]
    simp [Int.fract_zero]
  · rw [if_neg h1]
    by_cases h2 : ⌊q * ((s.length : ℝ) - 1)⌋ = ⌈q * ((s.length : ℝ) - 1)⌉
    · rw [if_pos h2, ← h2]
      rw [Int.fract]
      ring
    · rw [if_neg h2]
      rw [Int.fract]

/-- Some value of a nonempty list always lies inside the 1.5-IQR band of
its quartiles. -/
theorem iqr_band_mem (values : List ℝ) (hne : values ≠ []) :
    ∃ v ∈ sortedNumeric values,
      quantile (sortedNumeric values) 0.25 -
          1.5 * (quantile (sortedNumeric values) 0.75 -
            quantile (sortedNumeric values) 0.25) ≤ v ∧
        v ≤ quantile (sortedNumeric values) 0.75 +
          1.5 * (quantile (sortedNumeric values) 0.75 -
            quantile (sortedNumeric values) 0.25) := by
  have hlen : (sortedNumeric values).length = values.length := (sortedNumeric_perm values).length_eq
  have hn0 : (sortedNumeric values).length ≠ 0 := by
    rw [hlen]
    exact fun h => hne (List.length_eq_zero.mp h)
  have hs := sortedNumeric_sorted values
  set s := sortedNumeric values with hsdef
  set n := s.length with hndef
  have hn1 : 1 ≤ n := Nat.one_le_iff_ne_zero.mpr hn0
  by_cases hone : n = 1
  · -- single element: both quartiles are that element
    obtain ⟨a, ha⟩ := List.length_eq_one.mp hone
    refine ⟨a, by rw [ha]; exact List.mem_singleton.mpr rfl, ?_, ?_⟩
    · have hq : ∀ q : ℝ, quantile s q = a := by
        intro q
        simp only [quantile]
        rw [if_neg hn0, if_pos hone, ha]
        rfl
      rw [hq, hq]
      linarith
    · have hq : ∀ q : ℝ, quantile s q = a := by
        intro q
        simp only [quantile]
        rw [if_neg hn0, if_pos hone, ha]
        rfl
      rw [hq, hq]
      linarith
  · by_cases htwo : n = 2
    · -- two elements a ≤ b: the witness is b
      obtain ⟨a, b, hab⟩ := List.length_eq_two.mp htwo
      have hle : a ≤ b := by
        have := hs
        rw [hab, List.sorted_cons] at this
        exact this.1 b (List.mem_singleton.mpr rfl)
      have hq1 : quantile s 0.25 = a * (3 / 4) + b * (1 / 4) := by
        rw [quantile_eq s 0.25 hn0, ← hndef, htwo]
        have hp : (0.25 : ℝ) * (((2 : ℕ) : ℝ) - 1) = 1 / 4 := by norm_num
        rw [hp]
        have hfl : ⌊(1 / 4 : ℝ)⌋ = 0 := by norm_num
        have hcl : ⌈(1 / 4 : ℝ)⌉ = 1 := by
          rw [Int.ceil_eq_iff]
          · norm_num
        have hfr : Int.fract (1 / 4 : ℝ) = 1 / 4 := by
          rw [Int.fract, hfl]
          norm_num
        rw [hfl, hcl, hfr, hab]
        norm_num
      have hq3 : quantile s 0.75 = a * (1 / 4) + b * (3 / 4) := by
        rw [quantile_eq s 0.75 hn0, ← hndef, htwo]
        have hp : (0.75 : ℝ) * (((2 : ℕ) : ℝ) - 1) = 3 / 4 := by norm_num
        rw [hp]
        have hfl : ⌊(3 / 4 : ℝ)⌋ = 0 := by norm_num
        have hcl : ⌈(3 / 4 : ℝ)⌉ = 1 := by
          rw [Int.ceil_eq_iff]
          · norm_num
        have hfr : Int.fract (3 / 4 : ℝ) = 3 / 4 := by
          rw [Int.fract, hfl]
          norm_num
        rw [hfl, hcl, hfr, hab]
        norm_num
      refine ⟨b, by rw [hab]; exact List.mem_cons_of_mem a (List.mem_singleton.mpr rfl),
        ?_, ?_⟩
      · rw [hq1, hq3]
        nlinarith
      · rw [hq1, hq3]
        nlinarith
    · -- at least three elements: index chasing
      have hn3 : 3 ≤ n := by omega
      have hcast1 : (1 : ℝ) ≤ (n : ℝ) := by exact_mod_cast hn1
      have hcast3 : (3 : ℝ) ≤ (n : ℝ) := by exact_mod_cast hn3
      have hp1_nonneg : (0 : ℝ) ≤ 0.25 * ((n : ℝ) - 1) := by nlinarith
      have hp3_nonneg : (0 : ℝ) ≤ 0.75 * ((n : ℝ) - 1) := by nlinarith
      have hc1f3 : ⌈(0.25 : ℝ) * ((n : ℝ) - 1)⌉ ≤ ⌊(0.75 : ℝ) * ((n : ℝ) - 1)⌋ := by
        apply Int.le_floor.mpr
        have h1 : ((⌈(0.25 : ℝ) * ((n : ℝ) - 1)⌉ : ℤ) : ℝ) <
            0.25 * ((n : ℝ) - 1) + 1 := Int.ceil_lt_add_one _
        nlinarith
      have hf3top : ⌊(0.75 : ℝ) * ((n : ℝ) - 1)⌋ ≤ (n : ℤ) - 1 := by
        have : (0.75 : ℝ) * ((n : ℝ) - 1) ≤ (((n : ℤ) - 1 : ℤ) : ℝ) := by
          push_cast
          nlinarith
        calc ⌊(0.75 : ℝ) * ((n : ℝ) - 1)⌋ ≤ ⌊(((n : ℤ) - 1 : ℤ) : ℝ)⌋ :=
              Int.floor_le_floor this
          _ = (n : ℤ) - 1 := Int.floor_intCast _
      have hc3top : ⌈(0.75 : ℝ) * ((n : ℝ) - 1)⌉ ≤ (n : ℤ) - 1 := by
        apply Int.ceil_le.mpr
        push_cast
        nlinarith
      have hc1top : ⌈(0.25 : ℝ) * ((n : ℝ) - 1)⌉ ≤ (n : ℤ) - 1 :=
        le_trans hc1f3 hf3top
      have hf1c1 : ⌊(0.25 : ℝ) * ((n : ℝ) - 1)⌋ ≤ ⌈(0.25 : ℝ) * ((n : ℝ) - 1)⌉ :=
        Int.floor_le_ceil _
      have hf3c3 : ⌊(0.75 : ℝ) * ((n : ℝ) - 1)⌋ ≤ ⌈(0.75 : ℝ) * ((n : ℝ) - 1)⌉ :=
        Int.floor_le_ceil _
      -- natural index bounds
      have hi1lt : (⌈(0.25 : ℝ) * ((n : ℝ) - 1)⌉).toNat < n := by
        have := Int.toNat_le_toNat hc1top
        have h2 : ((n : ℤ) - 1).toNat = n - 1 := by omega
        omega
      have hf1lt : (⌊(0.25 : ℝ) * ((n : ℝ) - 1)⌋).toNat < n := by
        have := Int.toNat_le_toNat (le_trans hf1c1 hc1top)
        have h2 : ((n : ℤ) - 1).toNat = n - 1 := by omega
        omega
      have hf3lt : (⌊(0.75 : ℝ) * ((n : ℝ) - 1)⌋).toNat < n := by
        have := Int.toNat_le_toNat hf3top
        have h2 : ((n : ℤ) - 1).toNat = n - 1 := by omega
        omega
      have hc3lt : (⌈(0.75 : ℝ) * ((n : ℝ) - 1)⌉).toNat < n := by
        have := Int.toNat_le_toNat hc3top
        have h2 : ((n : ℤ) - 1).toNat = n - 1 := by omega
        omega
      -- monotone chains
      have hm1 : s.getD (⌊(0.25 : ℝ) * ((n : ℝ) - 1)⌋).toNat 0 ≤
          s.getD (⌈(0.25 : ℝ) * ((n : ℝ) - 1)⌉).toNat 0 :=
        sorted_getD_mono s hs _ _ (Int.toNat_le_toNat hf1c1) hi1lt
      have hm13 : s.getD (⌈(0.25 : ℝ) * ((n : ℝ) - 1)⌉).toNat 0 ≤
          s.getD (⌊(0.75 : ℝ) * ((n : ℝ) - 1)⌋).toNat 0 :=
        sorted_getD_mono s hs _ _ (Int.toNat_le_toNat hc1f3) hf3lt
      have hm3 : s.getD (⌊(0.75 : ℝ) * ((n : ℝ) - 1)⌋).toNat 0 ≤
          s.getD (⌈(0.75 : ℝ) * ((n : ℝ) - 1)⌉).toNat 0 :=
        sorted_getD_mono s hs _ _ (Int.toNat_le_toNat hf3c3) hc3lt
      -- quantile values and fraction bounds
      have hQ1 := quantile_eq s 0.25 hn0
      have hQ3 := quantile_eq s 0.75 hn0
      have hfr1_nonneg := Int.fract_nonneg ((0.25 : ℝ) * ((n : ℝ) - 1))
      have hfr1_lt := Int.fract_lt_one ((0.25 : ℝ) * ((n : ℝ) - 1))
      have hfr3_nonneg := Int.fract_nonneg ((0.75 : ℝ) * ((n : ℝ) - 1))
      have hfr3_lt := Int.fract_lt_one ((0.75 : ℝ) * ((n : ℝ) - 1))
      refine ⟨s.getD (⌈(0.25 : ℝ) * ((n : ℝ) - 1)⌉).toNat 0, ?_, ?_, ?_⟩
      · rw [List.getD_eq_get s 0 hi1lt]
        exact List.get_mem s _ _
      · rw [hQ1, hQ3, ← hndef]
        nlinarith
      · rw [hQ1, hQ3, ← hndef]
        nlinarith

/-- The 1.5-IQR filter keeps at least one value of a nonempty input. -/
theorem applyIQRFilter_filtered_ne_nil (values : List ℝ) (hne : values ≠ []) :
    (applyIQRFilter values 1.5).filtered ≠ [] := by
  obtain ⟨v, hv, hlow, hhigh⟩ := iqr_band_mem values hne
  apply List.ne_nil_of_mem (a := v)
  show v ∈ (applyIQRFilter values 1.5).filtered
  simp only [applyIQRFilter]
  rw [List.mem_filter]
  refine ⟨hv, ?_⟩
  simp only [realLE, Bool.and_eq_true, decide_eq_true_eq]
  constructor
  · linarith
  · linarith

/-- Every result emitted by the analyzer has a nonempty filtered set. -/
theorem emitted_filteredSize_pos (data : List PriceDataPoint) (r : RouteMedianResult)
    (hr : r ∈ analyzeMarketData data) : 0 < r.filteredSize := by
  rcases analyzeCore_mem data r ((analyzeMarketData_mem data r).mp hr) with
    ⟨kg, hm, ⟨_, he⟩ | ⟨_, he⟩⟩
  · rw [he]
    show 0 < (applyIQRFilter kg.2.prices 1.5).filtered.length
    exact List.length_pos.mpr
      (applyIQRFilter_filtered_ne_nil kg.2.prices (routeGroups_prop data kg hm).2)
  · rw [he]
    unfold smallGroupResult
    cases hl : (provinceGroups data).lookup
        (provinceRouteKey kg.2.origin kg.2.destination kg.2.vehicleType) with
    | none =>
      show 0 < kg.2.prices.length
      exact List.length_pos.mpr (routeGroups_prop data kg hm).2
    | some pool =>
      have hpne : pool.prices ≠ [] :=
        (provinceGroups_prop data _ (lookup_mem _ _ _ hl)).2.2.2
      show 0 < (if pool.prices.length < MIN_SAMPLE_SIZE then lowDataResult kg.2 pool.prices
        else provincePoolResult pool).filteredSize
      by_cases hlen : pool.prices.length < MIN_SAMPLE_SIZE
      · rw [if_pos hlen]
        show 0 < pool.prices.length
        exact List.length_pos.mpr hpne
      · rw [if_neg hlen]
        show 0 < (applyIQRFilter pool.prices 1.5).filtered.length
        exact List.length_pos.mpr (applyIQRFilter_filtered_ne_nil pool.prices hpne)

/-- C9: the 1.5-IQR band always retains at least one value of a nonempty
price list, so every median `analyzeMarketData` computes is over a
nonempty filtered set (`filteredSize > 0` in every emitted result) and
the quantile function's empty-input default is unreachable from it. -/
theorem iqr_filter_never_empties :
    (∀ values : List ℝ, values ≠ [] → (applyIQRFilter values 1.5).filtered ≠ []) ∧
      ∀ (data : List PriceDataPoint) (r : RouteMedianResult),
        r ∈ analyzeMarketData data → 0 < r.filteredSize :=
  ⟨applyIQRFilter_filtered_ne_nil, emitted_filteredSize_pos⟩

/-- C9 (witness): the filter keeps the single value of `[10]`, and the one
result emitted on `dataFour` has a positive filtered size. -/
theorem iqr_filter_never_empties_witness :
    (applyIQRFilter [10] 1.5).filtered ≠ [] ∧
      0 < (lowDataResult ⟨"Seoul/A", "Busan/B", "11t", [100, 100]⟩
          [100, 100, 200, 200]).filteredSize := by
  have hmem : lowDataResult ⟨"Seoul/A", "Busan/B", "11t", [100, 100]⟩
      [100, 100, 200, 200] ∈ analyzeMarketData dataFour := by
    rw [analyzeMarketData_dataFour, analyzeCore_dataFour]
    exact List.mem_singleton.mpr rfl
  exact ⟨iqr_filter_never_empties.1 [10] (by simp),
    iqr_filter_never_empties.2 dataFour _ hmem⟩

end FPH
